import Mathlib

/-!
Verification of the Failure-First Harness governance engine.

This file gives a shallow embedding of the JavaScript sources of the engine and
proves properties of the embedded definitions.

Two levels of embedding are used:

1. A dynamically-typed `JSValue` model for the code that works over arbitrary
   parsed JSON and whose behaviour on ill-typed fields matters
   (the FailureSpec validator in `validate.js` and the freeze precondition
   check in `failurespec/freeze.js`).  JavaScript truthiness, property
   access (including the `TypeError` thrown when reading a property of
   `null`/`undefined`, and the method-call `TypeError` for `toLowerCase` on
   non-strings) are modelled explicitly; a `TypeError` or `process.exit`
   surfaces as `Except.error`.

2. A typed record model for the CLI commands in `cli/ffh.js`
   (`claim`, `verify`, `reject`, `accept-risk`, `freeze`), which only ever
   read and write documents of the canonical shape they themselves produce.
   Each command is a pure function returning `Except String FailureSpecDoc`:
   `Except.error` models the `console.error` + `process.exit(1)` path, on
   which the document file is never rewritten, so rejection never mutates
   the document.

The clock (`new Date().toISOString()`), `process.env.USER`, the git commit
and the sha256 digest are external effects; they enter the model as explicit
parameters.  JSON strings in the repository are ASCII, so `Char.toUpper` /
`Char.toLower` model the JavaScript `toUpperCase()` / `toLowerCase()`.
-/

/-- A parsed JSON / JavaScript value.  `undefined` is JavaScript `undefined`
(the result of reading an absent property); `JSON.parse` itself never
produces it.  Object keys produced by `JSON.parse` are unique. -/
inductive JSValue where
  | undefined : JSValue
  | null : JSValue
  | bool : Bool → JSValue
  | num : Int → JSValue
  | str : String → JSValue
  | arr : List JSValue → JSValue
  | obj : List (String × JSValue) → JSValue

/-- JavaScript truthiness of a value.  (JSON has no `NaN`, so a number is
falsy exactly when it is `0`.) -/
def truthy : JSValue → Bool
  | .undefined => false
  | .null => false
  | .bool b => b
  | .num n => n != 0
  | .str s => s ≠ ""
  | .arr _ => true
  | .obj _ => true

/-- Property read on a value that is not `null`/`undefined`; absent
properties give `undefined`.  `.length` of a string or array is its
length (ids and titles in the repository are ASCII, so the string length
agrees with the JavaScript UTF-16 `.length`). -/
def propD : JSValue → String → JSValue
  | .obj fs, k => (((fs.find? (fun p => p.1 == k)).map (fun p => p.2)).getD .undefined)
  | .arr xs, k => if k == "length" then .num xs.length else .undefined
  | .str s, k => if k == "length" then .num s.length else .undefined
  | _, _ => .undefined

/-- Property read with JavaScript semantics: reading a property of
`null`/`undefined` throws a `TypeError`. -/
def getProp (v : JSValue) (k : String) : Except String JSValue :=
  match v with
  | .null => .error ("TypeError: Cannot read properties of null (reading " ++ k ++ ")")
  | .undefined => .error ("TypeError: Cannot read properties of undefined (reading " ++ k ++ ")")
  | v => .ok (propD v k)

/-- Property write (used by `freeze.js` on validated documents, whose
`metadata` is an object).  Assignment to a non-object is a sloppy-mode
no-op. -/
def setProp (v : JSValue) (k : String) (x : JSValue) : JSValue :=
  match v with
  | .obj fs =>
    if (fs.find? (fun p => p.1 == k)).isSome then
      .obj (fs.map (fun p => if p.1 == k then (p.1, x) else p))
    else
      .obj (fs ++ [(k, x)])
  | v => v

/-- SameValueZero equality, as used by `Set#has` and `Array#includes`.
Primitives compare by value; two objects or arrays obtained from
`JSON.parse` are distinct references, hence never equal. -/
def jsSVZ : JSValue → JSValue → Bool
  | .undefined, .undefined => true
  | .null, .null => true
  | .bool a, .bool b => a == b
  | .num a, .num b => a == b
  | .str a, .str b => a == b
  | _, _ => false

/-- Strict equality (`===`) against a string literal. -/
def jsStrictEqStr (v : JSValue) (s : String) : Bool :=
  match v with
  | .str t => t == s
  | _ => false

mutual
/-- Elements of an array under `Array.prototype.join`: `null` and
`undefined` become the empty string. -/
def elemStr : JSValue → String
  | .undefined => ""
  | .null => ""
  | .bool b => cond b "true" "false"
  | .num n => toString n
  | .str s => s
  | .arr xs => joinParts xs
  | .obj _ => "[object Object]"

/-- Comma join of array elements, as in `Array.prototype.toString`. -/
def joinParts : List JSValue → String
  | [] => ""
  | [x] => elemStr x
  | x :: y :: t => elemStr x ++ "," ++ joinParts (y :: t)
end

/-- The JavaScript `String(v)` coercion (applied by `RegExp#test`). -/
def jsToString : JSValue → String
  | .undefined => "undefined"
  | .null => "null"
  | .bool b => cond b "true" "false"
  | .num n => toString n
  | .str s => s
  | .arr xs => joinParts xs
  | .obj _ => "[object Object]"

/-- Character-list version of `String.prototype.startsWith`. -/
def startsWithChars : List Char → List Char → Bool
  | _, [] => true
  | [], _ :: _ => false
  | h :: t, p :: ps => h == p && startsWithChars t ps

/-- Character-list version of `String.prototype.includes`. -/
def containsSeq : List Char → List Char → Bool
  | [], pat => pat.isEmpty
  | h :: t, pat => startsWithChars (h :: t) pat || containsSeq t pat

/-- The `String.prototype.includes` method on strings. -/
def strIncludes (s pat : String) : Bool := containsSeq s.data pat.data

/-- ASCII model of `String.prototype.toLowerCase`. -/
def jsToLower (s : String) : String := String.mk (s.data.map Char.toLower)

/-- ASCII model of `String.prototype.toUpperCase`. -/
def jsToUpper (s : String) : String := String.mk (s.data.map Char.toUpper)

/-- A `.toLowerCase()` method call: a `TypeError` unless the receiver is a
string. -/
def toLowerCaseCall : JSValue → Except String String
  | .str s => .ok (jsToLower s)
  | _ => .error "TypeError: toLowerCase is not a function"

/-- The regular expression `^F\d{3}$` of the validator. -/
def matchesFddd (s : String) : Bool :=
  match s.data with
  | ['F', a, b, c] => a.isDigit && b.isDigit && c.isDigit
  | _ => false

/-- JavaScript `v > n` where `v` came from a `.length` read: `undefined`
compares false; a number compares numerically. -/
def jsGTnat (v : JSValue) (n : Int) : Bool :=
  match v with
  | .num m => m > n
  | _ => false

/-- The `Array.prototype.includes` check of a list of string constants. -/
def listIncludes (xs : List String) (v : JSValue) : Bool :=
  xs.any (fun s => jsSVZ (.str s) v)

/-- Whether an `Except` result is a success. -/
def isOkE {ε α : Type} : Except ε α → Bool
  | .ok _ => true
  | .error _ => false

/-! ## The FailureSpec validator (`validate.js`, `src/unnamed/part_005`)

Each check mirrors one block of `validateFailure` / `validateSchema` /
`lint`.  A check returns the list of `(path, message)` errors it pushes, or
`Except.error` if the corresponding JavaScript block would throw.  Blocks
are sequenced with `seqE`, which propagates the first throw and otherwise
concatenates the pushed entries in push order. -/

/-- An error or warning entry: `(path, message)` as pushed on a
`ValidationResult`. -/
abbrev VEntry := String × String

/-- Sequencing of two validator blocks: first throw wins, successes
concatenate. -/
def seqE (a b : Except String (List VEntry)) : Except String (List VEntry) :=
  match a with
  | .error e => .error e
  | .ok l =>
    match b with
    | .error e => .error e
    | .ok l2 => .ok (l ++ l2)

/-- The `SEVERITY_ORDER` constant. -/
def SEVERITY_ORDER : List String := ["critical", "high", "medium", "low"]

/-- The `VALID_STATES` constant. -/
def VALID_STATES : List String :=
  ["unaddressed", "in_progress", "claimed", "verified", "rejected", "accepted_risk"]

/-- The `VALID_EVIDENCE_TYPES` constant. -/
def VALID_EVIDENCE_TYPES : List String :=
  ["unit_test", "integration_test", "e2e_test", "fuzz", "load_test", "manual",
   "code_review", "security_test", "timing_analysis", "log_analysis", "log_search",
   "network_capture", "header_inspection", "traffic_analysis", "token_inspection",
   "manual_test", "log_inspection"]

/-- The deny-listed vague phrases for `oracle.condition`. -/
def vaguePhrases : List String := ["should be secure", "must be safe", "needs to work"]

/-- The assertion phrases flagged by `lint` in `evidence.criteria`. -/
def assertionPhrases : List String :=
  ["looks correct", "seems fine", "appears to work", "should work"]

/-- The id block of `validateFailure`: missing id, or `^F\d{3}$` mismatch
(`RegExp#test` coerces its argument with `String(...)`). -/
def checkId (pfx : String) (f : JSValue) : Except String (List VEntry) :=
  match getProp f "id" with
  | .error e => .error e
  | .ok fid =>
    .ok (if !truthy fid then [(pfx ++ ".id", "Missing required field: id")]
         else if !matchesFddd (jsToString fid) then
           [(pfx ++ ".id", "Invalid id format: expected F001, F002, etc.")]
         else [])

/-- The title block of `validateFailure`: missing title, or over 80
characters (`.length` of a non-string truthy value is `undefined`, and
`undefined > 80` is false). -/
def checkTitle (pfx : String) (f : JSValue) : Except String (List VEntry) :=
  match getProp f "title" with
  | .error e => .error e
  | .ok t =>
    if !truthy t then .ok [(pfx ++ ".title", "Missing required field: title")]
    else
      match getProp t "length" with
      | .error e => .error e
      | .ok len =>
        .ok (if jsGTnat len 80 then [(pfx ++ ".title", "Title too long (max 80)")] else [])

/-- The severity block of `validateFailure`. -/
def checkSeverity (pfx : String) (f : JSValue) : Except String (List VEntry) :=
  match getProp f "severity" with
  | .error e => .error e
  | .ok sev =>
    .ok (if !truthy sev then [(pfx ++ ".severity", "Missing required field: severity")]
         else if !listIncludes SEVERITY_ORDER sev then
           [(pfx ++ ".severity", "Invalid severity")]
         else [])

/-- The oracle block of `validateFailure`.  When `oracle.condition` is
truthy, `condition.toLowerCase()` is called: a `TypeError` unless it is a
string.  One error is pushed per matching vague phrase, then the
`falsifiable === undefined` check runs. -/
def checkOracle (pfx : String) (f : JSValue) : Except String (List VEntry) :=
  match getProp f "oracle" with
  | .error e => .error e
  | .ok oracle =>
    if !truthy oracle then .ok [(pfx ++ ".oracle", "Missing required field: oracle")]
    else
      match getProp oracle "condition" with
      | .error e => .error e
      | .ok cond =>
        let condErrs : Except String (List VEntry) :=
          if !truthy cond then
            .ok [(pfx ++ ".oracle.condition", "Missing required field: condition")]
          else
            match toLowerCaseCall cond with
            | .error e => .error e
            | .ok lc =>
              .ok (vaguePhrases.foldl
                (fun acc p =>
                  acc ++ (if strIncludes lc p then
                    [(pfx ++ ".oracle.condition", "Condition is too vague. Must be testable.")]
                  else [])) [])
        match condErrs with
        | .error e => .error e
        | .ok l1 =>
          match getProp oracle "falsifiable" with
          | .error e => .error e
          | .ok fals =>
            .ok (l1 ++ (match fals with
              | .undefined => [(pfx ++ ".oracle.falsifiable", "Missing required field: falsifiable")]
              | _ => []))

/-- The repro block of `validateFailure`: `steps` must be a truthy
non-empty array, `expected_if_vulnerable` must be truthy. -/
def checkRepro (pfx : String) (f : JSValue) : Except String (List VEntry) :=
  match getProp f "repro" with
  | .error e => .error e
  | .ok repro =>
    if !truthy repro then .ok [(pfx ++ ".repro", "Missing required field: repro")]
    else
      match getProp repro "steps" with
      | .error e => .error e
      | .ok steps =>
        let l1 :=
          if !truthy steps then [(pfx ++ ".repro.steps", "repro.steps must be a non-empty array")]
          else match steps with
            | .arr xs => if xs.length == 0 then
                [(pfx ++ ".repro.steps", "repro.steps must be a non-empty array")] else []
            | _ => [(pfx ++ ".repro.steps", "repro.steps must be a non-empty array")]
        match getProp repro "expected_if_vulnerable" with
        | .error e => .error e
        | .ok eiv =>
          .ok (l1 ++ (if !truthy eiv then
            [(pfx ++ ".repro.expected_if_vulnerable", "Missing required field: expected_if_vulnerable")]
          else []))

/-- The evidence block of `validateFailure`: `evidence.type` must be in
`VALID_EVIDENCE_TYPES`, `evidence.criteria` must be truthy. -/
def checkEvidence (pfx : String) (f : JSValue) : Except String (List VEntry) :=
  match getProp f "evidence" with
  | .error e => .error e
  | .ok ev =>
    if !truthy ev then .ok [(pfx ++ ".evidence", "Missing required field: evidence")]
    else
      match getProp ev "type" with
      | .error e => .error e
      | .ok ty =>
        let l1 :=
          if !truthy ty then [(pfx ++ ".evidence.type", "Missing required field: type")]
          else if !listIncludes VALID_EVIDENCE_TYPES ty then
            [(pfx ++ ".evidence.type", "Invalid evidence type")]
          else []
        match getProp ev "criteria" with
        | .error e => .error e
        | .ok cr =>
          .ok (l1 ++ (if !truthy cr then
            [(pfx ++ ".evidence.criteria", "Missing required field: criteria")]
          else []))

/-- The status block of `validateFailure`: state in `VALID_STATES`;
`verified` requires `verification.evidence`; `accepted_risk` requires
`risk_acceptance.accepted_by`. -/
def checkStatus (pfx : String) (f : JSValue) : Except String (List VEntry) :=
  match getProp f "status" with
  | .error e => .error e
  | .ok st =>
    if !truthy st then .ok []
    else
      match getProp st "state" with
      | .error e => .error e
      | .ok state =>
        let l1 :=
          if !truthy state then [(pfx ++ ".status.state", "Missing required field: state")]
          else if !listIncludes VALID_STATES state then
            [(pfx ++ ".status.state", "Invalid state")]
          else []
        let verifErrs : Except String (List VEntry) :=
          if jsStrictEqStr state "verified" then
            match getProp st "verification" with
            | .error e => .error e
            | .ok vf =>
              if !truthy vf then
                .ok [(pfx ++ ".status.verification", "State is verified but verification is missing")]
              else
                match getProp vf "evidence" with
                | .error e => .error e
                | .ok evd =>
                  .ok (if !truthy evd then
                    [(pfx ++ ".status.verification.evidence", "Verification must include evidence")]
                  else [])
          else .ok []
        match verifErrs with
        | .error e => .error e
        | .ok l2 =>
          let riskErrs : Except String (List VEntry) :=
            if jsStrictEqStr state "accepted_risk" then
              match getProp st "risk_acceptance" with
              | .error e => .error e
              | .ok ra =>
                if !truthy ra then
                  .ok [(pfx ++ ".status.risk_acceptance", "State is accepted_risk but risk_acceptance is missing")]
                else
                  match getProp ra "accepted_by" with
                  | .error e => .error e
                  | .ok ab =>
                    .ok (if !truthy ab then
                      [(pfx ++ ".status.risk_acceptance.accepted_by", "risk_acceptance must include accepted_by")]
                    else [])
            else .ok []
          match riskErrs with
          | .error e => .error e
          | .ok l3 => .ok (l1 ++ l2 ++ l3)

/-- The ownership block of `validateFailure`: ownership strictly equal to `inherited`
requires a truthy `inherited_from` (short-circuit: `inherited_from` is only
read when ownership is `inherited`). -/
def checkOwnership (pfx : String) (f : JSValue) : Except String (List VEntry) :=
  match getProp f "ownership" with
  | .error e => .error e
  | .ok ow =>
    if jsStrictEqStr ow "inherited" then
      match getProp f "inherited_from" with
      | .error e => .error e
      | .ok ifrom =>
        .ok (if !truthy ifrom then
          [(pfx ++ ".inherited_from", "Ownership is inherited but inherited_from is missing")]
        else [])
    else .ok []

/-- The `validateFailure(failure, index, result)` function: the eight
blocks in source order. -/
def validateFailure (f : JSValue) (index : Nat) : Except String (List VEntry) :=
  let pfx := "failures[" ++ toString index ++ "]"
  seqE (checkId pfx f)
    (seqE (checkTitle pfx f)
      (seqE (checkSeverity pfx f)
        (seqE (checkOracle pfx f)
          (seqE (checkRepro pfx f)
            (seqE (checkEvidence pfx f)
              (seqE (checkStatus pfx f) (checkOwnership pfx f)))))))

/-- The `validateSchema(spec, result)` function: version, metadata
(feature, created_by), failures-is-an-array. -/
def validateSchema (spec : JSValue) : Except String (List VEntry) :=
  match getProp spec "version" with
  | .error e => .error e
  | .ok ver =>
    let l1 :=
      if !truthy ver then [("version", "Missing required field: version")]
      else if !jsStrictEqStr ver "1.0" then [("version", "Invalid version (expected 1.0)")]
      else []
    match getProp spec "metadata" with
    | .error e => .error e
    | .ok md =>
      let l2e : Except String (List VEntry) :=
        if !truthy md then .ok [("metadata", "Missing required field: metadata")]
        else
          match getProp md "feature" with
          | .error e => .error e
          | .ok ft =>
            match getProp md "created_by" with
            | .error e => .error e
            | .ok cb =>
              .ok ((if !truthy ft then [("metadata.feature", "Missing required field: feature")] else [])
                ++ (if !truthy cb then [("metadata.created_by", "Missing required field: created_by")] else []))
      match l2e with
      | .error e => .error e
      | .ok l2 =>
        match getProp spec "failures" with
        | .error e => .error e
        | .ok fl =>
          .ok (l1 ++ l2 ++
            (if !truthy fl then [("failures", "Missing required field: failures")]
             else match fl with
               | .arr _ => []
               | _ => [("failures", "failures must be an array")]))

/-- The duplicate-id block of the `lint` loop: when `f.id` is truthy, push
an error if the `ids` set already has it (SameValueZero) and add it to the
set. -/
def lintIdPart (pfx : String) (ids : List JSValue) (fid : JSValue) :
    List VEntry × List JSValue :=
  if truthy fid then
    ((if ids.any (fun v => jsSVZ v fid) then [(pfx ++ ".id", "Duplicate failure ID")] else []),
     ids ++ [fid])
  else ([], ids)

/-- The duplicate-title block of the `lint` loop: a truthy title is
lowercased (a `TypeError` for a non-string), checked against the `titles`
set and added to it. -/
def lintTitlePart (pfx : String) (titles : List String) (t : JSValue) :
    Except String (List VEntry × List String) :=
  if truthy t then
    match toLowerCaseCall t with
    | .error e => .error e
    | .ok lt =>
      .ok ((if titles.contains lt then [(pfx ++ ".title", "Possible duplicate title")] else []),
           titles ++ [lt])
  else .ok ([], titles)

/-- The critical/high missing-impact/detection warnings of the `lint`
loop. -/
def lintSevPart (pfx : String) (f : JSValue) : Except String (List VEntry) :=
  match getProp f "severity" with
  | .error e => .error e
  | .ok sev =>
    if jsStrictEqStr sev "critical" || jsStrictEqStr sev "high" then
      match getProp f "impact" with
      | .error e => .error e
      | .ok imp =>
        match getProp f "detection" with
        | .error e => .error e
        | .ok det =>
          .ok ((if !truthy imp then [(pfx ++ ".impact", "severity failure should have impact defined")] else [])
            ++ (if !truthy det then [(pfx ++ ".detection", "severity failure should have detection defined")] else []))
    else .ok []

/-- The assertion-phrase warnings of the `lint` loop: a truthy
`evidence.criteria` is lowercased (a `TypeError` for a non-string) and one
warning is pushed per matching phrase. -/
def lintCritPart (pfx : String) (f : JSValue) : Except String (List VEntry) :=
  match getProp f "evidence" with
  | .error e => .error e
  | .ok ev =>
    if truthy ev then
      match getProp ev "criteria" with
      | .error e => .error e
      | .ok cr =>
        if truthy cr then
          match toLowerCaseCall cr with
          | .error e => .error e
          | .ok lc =>
            .ok (assertionPhrases.foldl
              (fun acc p =>
                acc ++ (if strIncludes lc p then
                  [(pfx ++ ".evidence.criteria", "Evidence criteria appears to be an assertion, not observable behavior")]
                else [])) [])
        else .ok []
    else .ok []

/-- One iteration of the `lint` loop for one entry: the four blocks in
source order, threading the `ids` and `titles` accumulators (the
JavaScript `Set`s, as insertion-ordered lists). -/
def lintEntry (f : JSValue) (pfx : String) (ids : List JSValue) (titles : List String) :
    Except String (List VEntry × List VEntry × List JSValue × List String) :=
  match getProp f "id" with
  | .error e => .error e
  | .ok fid =>
    let (e1, ids2) := lintIdPart pfx ids fid
    match getProp f "title" with
    | .error e => .error e
    | .ok t =>
      match lintTitlePart pfx titles t with
      | .error e => .error e
      | .ok (w1, titles2) =>
        match lintSevPart pfx f with
        | .error e => .error e
        | .ok w2 =>
          match lintCritPart pfx f with
          | .error e => .error e
          | .ok w3 => .ok (e1, w1 ++ w2 ++ w3, ids2, titles2)

/-- The `lint` loop over the failure list, threading the accumulators. -/
def lintRun (i : Nat) (ids : List JSValue) (titles : List String) :
    List JSValue → Except String (List VEntry × List VEntry × List JSValue × List String)
  | [] => .ok ([], [], ids, titles)
  | f :: fs =>
    match lintEntry f ("failures[" ++ toString i ++ "]") ids titles with
    | .error e => .error e
    | .ok (es, ws, ids2, titles2) =>
      match lintRun (i + 1) ids2 titles2 fs with
      | .error e => .error e
      | .ok (es2, ws2, ids3, titles3) => .ok (es ++ es2, ws ++ ws2, ids3, titles3)

/-- The `lint(spec, result)` function: early return when `spec.failures`
is falsy; the per-entry loop (skipped when `failures` is a truthy
non-array, since `i < undefined` is false); then the frozen-spec
warning. -/
def lint (spec : JSValue) : Except String (List VEntry × List VEntry) :=
  match getProp spec "failures" with
  | .error e => .error e
  | .ok fl =>
    if !truthy fl then .ok ([], [])
    else
      let body : Except String (List VEntry × List VEntry) :=
        match fl with
        | .arr xs =>
          match lintRun 0 [] [] xs with
          | .error e => .error e
          | .ok (es, ws, _, _) => .ok (es, ws)
        | _ => .ok ([], [])
      match body with
      | .error e => .error e
      | .ok (es, ws) =>
        match getProp spec "metadata" with
        | .error e => .error e
        | .ok md =>
          if truthy md then
            match getProp md "frozen_at" with
            | .error e => .error e
            | .ok fz =>
              .ok (es, ws ++ (if truthy fz then
                [("metadata", "Spec is frozen. Modifications should go to discoveries.")]
              else []))
          else .ok (es, ws)

/-- A `ValidationResult`: the `errors` and `warnings` lists. -/
structure VRes where
  errors : List VEntry
  warnings : List VEntry
deriving DecidableEq

/-- The per-failure loop of `validate`: `validateFailure` on each entry in
order, concatenating the pushed errors. -/
def validateFailures (i : Nat) : List JSValue → Except String (List VEntry)
  | [] => .ok []
  | f :: fs => seqE (validateFailure f i) (validateFailures (i + 1) fs)

/-- The `validate(filepath, options)` function, applied to the parsed
document (file reading is external).  A truthy `error` field makes the
JavaScript `process.exit(1)`; `spec.error` on a `null` document throws.
Both abort without a result and surface as `Except.error`.  Then schema
validation, the per-failure loop (only when `failures` is an array), and
lint checks when the lint option is set.  Warnings come only from lint. -/
def validate (lintOpt : Bool) (spec : JSValue) : Except String VRes :=
  match getProp spec "error" with
  | .error e => .error e
  | .ok er =>
    if truthy er then .error "exit: Error reading file"
    else
      match validateSchema spec with
      | .error e => .error e
      | .ok e0 =>
        let fErrs : Except String (List VEntry) :=
          match getProp spec "failures" with
          | .error e => .error e
          | .ok fl =>
            match fl with
            | .arr xs => validateFailures 0 xs
            | _ => .ok []
        match fErrs with
        | .error e => .error e
        | .ok eF =>
          if lintOpt then
            match lint spec with
            | .error e => .error e
            | .ok (eL, wL) => .ok ⟨e0 ++ eF ++ eL, wL⟩
          else .ok ⟨e0 ++ eF, []⟩

/-! ## The freeze preconditions (`failurespec/freeze.js`) -/

/-- The `validateBeforeFreeze(spec)` function.  Error strings are pushed in
source order: version, metadata.feature, already-frozen, no-failures, then
the per-entry required-field presence check
(`!f.id || !f.title || !f.severity || !f.oracle || !f.repro || !f.evidence`,
which throws when an entry is `null`).  Note the loop is skipped when
`failures` is a truthy non-array (`i < undefined` is false), and the
`length === 0` check is false for a truthy non-array.
The required-field presence check on one entry: all six property reads
throw exactly when the entry is `null`/`undefined`; otherwise the
disjunction of the falsiness tests is pushed. -/
def freezeEntryCheck : JSValue → Except String (List String)
  | f =>
    match getProp f "id", getProp f "title", getProp f "severity",
          getProp f "oracle", getProp f "repro", getProp f "evidence" with
    | .ok fid, .ok t, .ok sev, .ok orc, .ok rep, .ok ev =>
      .ok (if !truthy fid || !truthy t || !truthy sev || !truthy orc || !truthy rep || !truthy ev then
        ["Failure is missing required fields"]
      else [])
    | .error e, _, _, _, _, _ => .error e
    | _, .error e, _, _, _, _ => .error e
    | _, _, .error e, _, _, _ => .error e
    | _, _, _, .error e, _, _ => .error e
    | _, _, _, _, .error e, _ => .error e
    | _, _, _, _, _, .error e => .error e

/-- The `for` loop of `validateBeforeFreeze` over all entries. -/
def freezeEntryLoop : List JSValue → Except String (List String)
  | [] => .ok []
  | f :: fs =>
    match freezeEntryCheck f with
    | .error e => .error e
    | .ok l =>
      match freezeEntryLoop fs with
      | .error e => .error e
      | .ok l2 => .ok (l ++ l2)

/-- The `validateBeforeFreeze(spec)` body. -/
def validateBeforeFreeze (spec : JSValue) : Except String (List String) :=
  match getProp spec "version" with
  | .error e => .error e
  | .ok ver =>
    let l1 := if !truthy ver || !jsStrictEqStr ver "1.0" then ["Invalid or missing version"] else []
    match getProp spec "metadata" with
    | .error e => .error e
    | .ok md =>
      let l2e : Except String (List String) :=
        if !truthy md then .ok ["Missing metadata.feature"]
        else
          match getProp md "feature" with
          | .error e => .error e
          | .ok ft => .ok (if !truthy ft then ["Missing metadata.feature"] else [])
      match l2e with
      | .error e => .error e
      | .ok l2 =>
        let l3e : Except String (List String) :=
          if truthy md then
            match getProp md "frozen_at" with
            | .error e => .error e
            | .ok fz => .ok (if truthy fz then ["Spec is already frozen"] else [])
          else .ok []
        match l3e with
        | .error e => .error e
        | .ok l3 =>
          match getProp spec "failures" with
          | .error e => .error e
          | .ok fl =>
            let l4 :=
              if !truthy fl then ["No failures defined"]
              else match fl with
                | .arr xs => if xs.length == 0 then ["No failures defined"] else []
                | _ => []
            let l5e : Except String (List String) :=
              if truthy fl then
                match fl with
                | .arr xs => freezeEntryLoop xs
                | _ => .ok []
              else .ok []
            match l5e with
            | .error e => .error e
            | .ok l5 => .ok (l1 ++ l2 ++ l3 ++ l4 ++ l5)

/-- The `main` flow of `freeze.js` after the file is parsed: run
`validateBeforeFreeze`; on any error (or throw) exit without saving;
otherwise set `metadata.frozen_at` and `metadata.frozen_commit` and save
the document.  `now` is the clock, `commit` the externally supplied or
detected git commit (possibly `null`). -/
def freezeDoc (now : String) (commit : JSValue) (spec : JSValue) : Except (List String) JSValue :=
  match validateBeforeFreeze spec with
  | .error e => .error [e]
  | .ok errs =>
    if errs.isEmpty then
      .ok (setProp spec "metadata"
        (setProp (setProp (propD spec "metadata") "frozen_at" (.str now)) "frozen_commit" commit))
    else .error errs

/-! ## The CLI commands (`cli/ffh.js`)

The CLI reads and writes `failures.json` documents of the canonical shape
it produces itself, so it is modelled over typed records.  Optional JSON
fields are `Option`; the CLI argument parser never yields an empty
string for a flag value (a falsy `args[i+1]` is skipped), and the
subsequent `!value` checks also reject empty strings, so a supplied flag
value is modelled as `Option String` with JavaScript truthiness applied by
`jsOr` / `truthyOpt`. -/

/-- The `status.guardrail` record written by `claim`.  The JSON key of
`implementedBy` is `implemented_by`. -/
structure Guardrail where
  design : String
  location : String
  implementedBy : String
  implemented_at : String
deriving DecidableEq

/-- The `status.verification` record written by `verify`. -/
structure Verification where
  method : String
  evidence : String
  evidence_hash : String
  verified_by : String
  verified_at : String
deriving DecidableEq

/-- The `status.rejection` record written by `reject`. -/
structure Rejection where
  reason : String
  rejected_by : String
  rejected_at : String
deriving DecidableEq

/-- The `status.risk_acceptance` record written by `accept-risk`. -/
structure RiskAcceptance where
  reason : String
  accepted_by : String
  accepted_at : String
  review_by : Option String
deriving DecidableEq

/-- The `status` record of an entry; every field may be absent. -/
structure FStatus where
  state : Option String
  guardrail : Option Guardrail
  verification : Option Verification
  rejection : Option Rejection
  risk_acceptance : Option RiskAcceptance
deriving DecidableEq

/-- The empty object `{}` used by `failure.status = failure.status || {}`. -/
def FStatus.empty : FStatus := ⟨none, none, none, none, none⟩

/-- One failure entry as the CLI reads it. -/
structure Failure where
  id : String
  title : String
  severity : String
  status : Option FStatus
deriving DecidableEq

/-- The document metadata as the CLI reads it. -/
structure SpecMetadata where
  feature : String
  created_by : String
  frozen_at : Option String
  frozen_commit : Option String
deriving DecidableEq

/-- A `failures.json` document as the CLI reads it. -/
structure FailureSpecDoc where
  version : String
  metadata : SpecMetadata
  failures : List Failure
deriving DecidableEq

/-- JavaScript `a || b` for an optional string `a`: an absent or empty
string falls through to the default. -/
def jsOr (a : Option String) (b : String) : String :=
  match a with
  | some s => if s = "" then b else s
  | none => b

/-- JavaScript truthiness of an optional string, as an `Option`:
`some s` for a non-empty `s`, otherwise `none`. -/
def truthyOpt (a : Option String) : Option String :=
  match a with
  | some s => if s = "" then none else some s
  | none => none

/-- The `findFailure(spec, id)` helper: uppercase the supplied id and find
the first entry whose stored id equals it exactly
(`spec.failures.find(f => f.id === upperId)`). -/
def findFailure (spec : FailureSpecDoc) (id : String) : Option Failure :=
  spec.failures.find? (fun f => f.id == jsToUpper id)

/-- In-place mutation of the entry object returned by `find`: replace the
first entry satisfying `p`. -/
def updateFirst (p : Failure → Bool) (g : Failure → Failure) : List Failure → List Failure
  | [] => []
  | f :: fs => if p f then g f :: fs else f :: updateFirst p g fs

/-- Mutation of the entry `findFailure` located, then save. -/
def saveWith (spec : FailureSpecDoc) (id : String) (g : Failure → Failure) : FailureSpecDoc :=
  { spec with failures := updateFirst (fun f => f.id == jsToUpper id) g spec.failures }

/-- The `state` the CLI compares with `claimed`:
`failure.status?.state` (strict, no default). -/
def stateOf (f : Failure) : Option String :=
  f.status.bind (fun st => st.state)

/-- The `claim` command (`ffh.js` lines 213-257).  `design` and `location`
are optional; missing or empty values fall back to the prior guardrail
value and then to `Not specified`.  The state is set to `claimed`
unconditionally once the entry is found, and `implemented_by` /
`implemented_at` are stamped. -/
def claimCmd (user now : String) (spec : FailureSpecDoc) (id : String)
    (design location : Option String) : Except String FailureSpecDoc :=
  match findFailure spec id with
  | none => .error ("Error: Failure " ++ id ++ " not found")
  | some f =>
    let st0 := f.status.getD FStatus.empty
    let priorDesign : Option String := st0.guardrail.map (fun g => g.design)
    let priorLocation : Option String := st0.guardrail.map (fun g => g.location)
    .ok (saveWith spec id (fun g =>
      { g with status := some { st0 with
          state := some "claimed",
          guardrail := some {
            design := jsOr design (jsOr priorDesign "Not specified"),
            location := jsOr location (jsOr priorLocation "Not specified"),
            implementedBy := user,
            implemented_at := now } } }))

/-- The `verify` command (`ffh.js` lines 259-317).  Requires the entry to
be in state `claimed` and a truthy `--evidence` value; then stamps the
verification record.  `hash` is the external sha256 facility applied to
the evidence string. -/
def verifyCmd (hash : String → String) (user now : String) (spec : FailureSpecDoc)
    (id : String) (evidence method : Option String) : Except String FailureSpecDoc :=
  match findFailure spec id with
  | none => .error ("Error: Failure " ++ id ++ " not found")
  | some f =>
    if stateOf f ≠ some "claimed" then
      .error ("Error: " ++ id ++ " is not in CLAIMED state")
    else
      match truthyOpt evidence with
      | none => .error "Error: --evidence is required"
      | some e =>
        let st0 := f.status.getD FStatus.empty
        .ok (saveWith spec id (fun g =>
          { g with status := some { st0 with
              state := some "verified",
              verification := some {
                method := jsOr method "Manual verification",
                evidence := e,
                evidence_hash := hash e,
                verified_by := user,
                verified_at := now } } }))

/-- The `reject` command (`ffh.js` lines 319-366).  Requires state
`claimed` and a truthy `--reason`; resets the state to `unaddressed` and
attaches the rejection record (the guardrail is left in place). -/
def rejectCmd (user now : String) (spec : FailureSpecDoc) (id : String)
    (reason : Option String) : Except String FailureSpecDoc :=
  match findFailure spec id with
  | none => .error ("Error: Failure " ++ id ++ " not found")
  | some f =>
    if stateOf f ≠ some "claimed" then
      .error ("Error: " ++ id ++ " is not in CLAIMED state")
    else
      match truthyOpt reason with
      | none => .error "Error: --reason is required"
      | some r =>
        let st0 := f.status.getD FStatus.empty
        .ok (saveWith spec id (fun g =>
          { g with status := some { st0 with
              state := some "unaddressed",
              rejection := some { reason := r, rejected_by := user, rejected_at := now } } }))

/-- The automated-identity patterns of `accept-risk`. -/
def agentPatterns : List String := ["agent", "bot", "ai", "claude", "gpt", "assistant"]

/-- The agent-identifier check: the lowercased `--by` value contains one of
the patterns as a substring. -/
def isAgentIdentity (s : String) : Bool :=
  agentPatterns.any (fun p => strIncludes (jsToLower s) p)

/-- The `accept-risk` command (`ffh.js` lines 368-435).  Requires truthy
`--reason` and `--by`; rejects an automated-looking `--by`; the current
state of the entry is never checked.  On success the state becomes
`accepted_risk` and the risk-acceptance record is stamped
(`review_by` is `reviewBy || null`). -/
def acceptRiskCmd (now : String) (spec : FailureSpecDoc) (id : String)
    (reason acceptedBy reviewBy : Option String) : Except String FailureSpecDoc :=
  match findFailure spec id with
  | none => .error ("Error: Failure " ++ id ++ " not found")
  | some f =>
    match truthyOpt reason, truthyOpt acceptedBy with
    | some r, some b =>
      if isAgentIdentity b then
        .error "Error: Risk acceptance must be by a human, not an agent"
      else
        let st0 := f.status.getD FStatus.empty
        .ok (saveWith spec id (fun g =>
          { g with status := some { st0 with
              state := some "accepted_risk",
              risk_acceptance := some {
                reason := r,
                accepted_by := b,
                accepted_at := now,
                review_by := truthyOpt reviewBy } } }))
    | _, _ => .error "Error: --reason and --by are required"

/-- The `freeze` command of the CLI (`ffh.js` lines 121-146): reject when
`metadata.frozen_at` is truthy or the failure list is empty, otherwise
stamp `frozen_at` and `frozen_commit`. -/
def freezeCmd (now : String) (commit : Option String) (spec : FailureSpecDoc) :
    Except String FailureSpecDoc :=
  match truthyOpt spec.metadata.frozen_at with
  | some t => .error ("Error: Spec already frozen at " ++ t)
  | none =>
    if spec.failures.length = 0 then
      .error "Error: No failures defined. Add failures before freezing."
    else
      .ok { spec with metadata :=
        { spec.metadata with frozen_at := some now, frozen_commit := commit } }

/-! ## The priority formula (`README.md`, section Prioritization) -/

/-- Severity levels of the priority formula. -/
inductive PSeverity where
  | critical | high | medium | low
deriving DecidableEq

/-- Likelihood levels of the priority formula. -/
inductive PLikelihood where
  | high | medium | low
deriving DecidableEq

/-- Blast-radius levels of the priority formula. -/
inductive PBlastRadius where
  | system | service | component
deriving DecidableEq

/-- Verification-ease levels of the priority formula. -/
inductive PVerificationEase where
  | trivial | moderate | hard
deriving DecidableEq

/-- Severity weights: critical=4, high=3, medium=2, low=1. -/
def severityWeight : PSeverity → Int
  | .critical => 4 | .high => 3 | .medium => 2 | .low => 1

/-- Likelihood weights: high=3, medium=2, low=1. -/
def likelihoodWeight : PLikelihood → Int
  | .high => 3 | .medium => 2 | .low => 1

/-- Blast-radius weights: system=3, service=2, component=1. -/
def blastRadiusWeight : PBlastRadius → Int
  | .system => 3 | .service => 2 | .component => 1

/-- Verification-ease weights: trivial=3, moderate=2, hard=1. -/
def verificationEaseWeight : PVerificationEase → Int
  | .trivial => 3 | .moderate => 2 | .hard => 1

/-- The formula `PRIORITY = severity*1000 + likelihood*100 + blast_radius*10 -
verification_ease*5`. -/
def priorityScore (s : PSeverity) (l : PLikelihood) (b : PBlastRadius)
    (v : PVerificationEase) : Int :=
  severityWeight s * 1000 + likelihoodWeight l * 100 + blastRadiusWeight b * 10
    - verificationEaseWeight v * 5

/-- Remediation order: a higher priority score sorts first. -/
def sortsBefore (a b : Int) : Prop := a > b

/-! ## Basic lemmas about the JavaScript model -/

/-- A truthy value is not `null` and not `undefined`. -/
theorem truthy_ne (v : JSValue) (h : truthy v = true) : v ≠ .null ∧ v ≠ .undefined := by
  cases v <;> simp_all [truthy]

/-- Property reads on a non-`null`, non-`undefined` receiver succeed and
give `propD`. -/
theorem getProp_eq_ok {v : JSValue} (h1 : v ≠ .null) (h2 : v ≠ .undefined) (k : String) :
    getProp v k = .ok (propD v k) := by
  cases v <;> simp_all [getProp]

/-- Sequencing succeeds exactly when both blocks do, concatenating. -/
theorem seqE_ok_iff (a b : Except String (List VEntry)) (l : List VEntry) :
    seqE a b = .ok l ↔ ∃ la lb, a = .ok la ∧ b = .ok lb ∧ l = la ++ lb := by
  cases a <;> cases b <;> simp [seqE] <;> tauto

/-- A strict-equality match against a string literal pins the value. -/
theorem jsStrictEqStr_eq {v : JSValue} {s : String} (h : jsStrictEqStr v s = true) :
    v = .str s := by
  cases v <;> simp_all [jsStrictEqStr]

/-- SameValueZero is reflexive on strings. -/
theorem jsSVZ_str_refl (s : String) : jsSVZ (.str s) (.str s) = true := by
  simp [jsSVZ]

/-- The function `Char.toUpper` never produces a lowercase letter, in particular
never `'f'`. -/
theorem char_toUpper_ne_f (c : Char) : Char.toUpper c ≠ 'f' := by
  simp only [Char.toUpper]
  split
  · rename_i h
    have h1 : 97 ≤ c.toNat := h.1
    have h2 : c.toNat ≤ 122 := h.2
    generalize c.toNat = n at h1 h2
    interval_cases n <;> decide
  · rename_i h
    intro hc
    subst hc
    simp at h

/-- No string uppercases to `"f001"`. -/
theorem jsToUpper_ne_f001 (s : String) : jsToUpper s ≠ "f001" := by
  intro h
  have hd : (jsToUpper s).data = "f001".data := by rw [h]
  simp only [jsToUpper] at hd
  cases s with
  | mk l =>
    cases l with
    | nil => simp at hd
    | cons a t =>
      simp only [List.map_cons] at hd
      have ha : Char.toUpper a = 'f' := by
        have := congrArg (fun xs => xs.headD 'x') hd
        simpa using this
      exact char_toUpper_ne_f a ha

/-- Combining `find?` and `updateFirst` with the same predicate: the found element is
replaced and is still the first match, provided the update preserves the
predicate. -/
theorem find?_updateFirst (p : Failure → Bool) (g : Failure → Failure)
    (xs : List Failure) (f : Failure) (h : xs.find? p = some f)
    (hp : p (g f) = true) :
    (updateFirst p g xs).find? p = some (g f) := by
  induction xs with
  | nil => simp at h
  | cons x t ih =>
    by_cases hx : p x
    · rw [List.find?_cons_of_pos _ hx] at h
      cases h
      simp [updateFirst, hx, List.find?_cons_of_pos _ hp]
    · rw [List.find?_cons_of_neg _ (by simp [hx])] at h
      simp [updateFirst, hx, List.find?_cons_of_neg, ih h]

/-- Lookup via `findFailure` only ever returns an entry whose stored id is the
uppercased supplied id. -/
theorem findFailure_id {spec : FailureSpecDoc} {id : String} {f : Failure}
    (h : findFailure spec id = some f) : f.id = jsToUpper id := by
  have := List.find?_some h
  simpa using this

/-! ## Characterization of a successful freeze -/

/-- A freeze-precondition entry check that pushes nothing has all six
required fields truthy. -/
theorem freezeEntryCheck_nil {f : JSValue} (h : freezeEntryCheck f = .ok []) :
    truthy (propD f "id") = true ∧ truthy (propD f "title") = true ∧
    truthy (propD f "severity") = true ∧ truthy (propD f "oracle") = true ∧
    truthy (propD f "repro") = true ∧ truthy (propD f "evidence") = true := by
  have hs : f ≠ .null ∧ f ≠ .undefined := by
    constructor <;> rintro rfl <;> simp [freezeEntryCheck, getProp] at h
  obtain ⟨hn, hu⟩ := hs
  simp only [freezeEntryCheck, getProp_eq_ok hn hu] at h
  split at h
  · simp at h
  · simp_all [Bool.not_eq_true']

/-- A freeze-precondition loop that pushes nothing pushes nothing for each
entry. -/
theorem freezeEntryLoop_nil {xs : List JSValue} (h : freezeEntryLoop xs = .ok []) :
    ∀ f ∈ xs, freezeEntryCheck f = .ok [] := by
  induction xs with
  | nil => simp
  | cons x t ih =>
    intro f hf
    simp only [freezeEntryLoop] at h
    cases hc : freezeEntryCheck x with
    | error e => rw [hc] at h; simp at h
    | ok l =>
      rw [hc] at h
      cases hl : freezeEntryLoop t with
      | error e => rw [hl] at h; simp at h
      | ok l2 =>
        rw [hl] at h
        simp only [Except.ok.injEq] at h
        have hnil : l = [] ∧ l2 = [] := by
          constructor <;> cases l <;> simp_all
        rw [List.mem_cons] at hf
        rcases hf with rfl | hf
        · rw [hc, hnil.1]
        · exact ih (by rw [hl, hnil.2]) f hf

/-- A `validateBeforeFreeze` run that reports no errors certifies: version
`"1.0"`, truthy `metadata.feature`, falsy `metadata.frozen_at`, truthy
`failures` which, if an array, is non-empty with every entry carrying the
six required fields. -/
theorem validateBeforeFreeze_nil {spec : JSValue} (h : validateBeforeFreeze spec = .ok []) :
    propD spec "version" = .str "1.0" ∧
    truthy (propD spec "metadata") = true ∧
    truthy (propD (propD spec "metadata") "feature") = true ∧
    truthy (propD (propD spec "metadata") "frozen_at") = false ∧
    truthy (propD spec "failures") = true ∧
    (∀ xs, propD spec "failures" = .arr xs →
      xs ≠ [] ∧ ∀ f ∈ xs, truthy (propD f "id") = true ∧ truthy (propD f "title") = true ∧
        truthy (propD f "severity") = true ∧ truthy (propD f "oracle") = true ∧
        truthy (propD f "repro") = true ∧ truthy (propD f "evidence") = true) := by
  have hs : spec ≠ .null ∧ spec ≠ .undefined := by
    constructor <;> rintro rfl <;> simp [validateBeforeFreeze, getProp] at h
  obtain ⟨hn, hu⟩ := hs
  simp only [validateBeforeFreeze, getProp_eq_ok hn hu] at h
  by_cases hmd : truthy (propD spec "metadata") = true
  case neg =>
    rw [Bool.not_eq_true] at hmd
    simp only [hmd, Bool.not_false, Bool.false_eq_true, if_false, if_true] at h
    cases hEE : (if truthy (propD spec "failures") = true then
        match propD spec "failures" with
        | JSValue.arr xs => freezeEntryLoop xs
        | _ => Except.ok []
      else Except.ok []) with
    | error e =>
      rw [hEE] at h
      simp at h
    | ok l5 =>
      rw [hEE] at h
      simp at h
  case pos =>
    obtain ⟨hmn, hmu⟩ := truthy_ne _ hmd
    simp only [hmd, getProp_eq_ok hmn hmu, Bool.not_true, Bool.false_eq_true, if_false,
      if_true] at h
    by_cases hfl : truthy (propD spec "failures") = true
    case neg =>
      rw [Bool.not_eq_true] at hfl
      simp [hfl, List.append_eq_nil] at h
    case pos =>
      simp only [hfl, Bool.not_true, Bool.false_eq_true, if_false, if_true] at h
      cases hE : (match propD spec "failures" with
        | JSValue.arr xs => freezeEntryLoop xs
        | _ => Except.ok []) with
      | error e =>
        rw [hE] at h
        simp at h
      | ok l5 =>
        rw [hE] at h
        simp only [Except.ok.injEq, List.append_eq_nil] at h
        obtain ⟨⟨⟨⟨hA, hB⟩, hC⟩, hD⟩, hE5⟩ := h
        have hver : (!truthy (propD spec "version") || !jsStrictEqStr (propD spec "version") "1.0") = false := by
          by_contra hc
          rw [Bool.not_eq_false] at hc
          rw [hc] at hA
          simp at hA
        rw [Bool.or_eq_false_iff, Bool.not_eq_false', Bool.not_eq_false'] at hver
        have hfeat : truthy (propD (propD spec "metadata") "feature") = true := by
          by_contra hc
          rw [Bool.not_eq_true] at hc
          rw [hc] at hB
          simp at hB
        have hfz : truthy (propD (propD spec "metadata") "frozen_at") = false := by
          by_contra hc
          rw [Bool.not_eq_false] at hc
          rw [hc] at hC
          simp at hC
        refine ⟨jsStrictEqStr_eq hver.2, hmd, hfeat, hfz, hfl, ?_⟩
        intro xs hxs
        rw [hxs] at hD hE
        simp only at hE
        constructor
        · intro hxsnil
          subst hxsnil
          simp at hD
        · intro f hf
          have hcheck := freezeEntryLoop_nil (by rw [hE, hE5]) f hf
          exact freezeEntryCheck_nil hcheck

/-- A successful `freeze.js` run certifies that `validateBeforeFreeze`
reported no errors. -/
theorem freezeDoc_ok {now : String} {commit spec d : JSValue}
    (h : freezeDoc now commit spec = .ok d) : validateBeforeFreeze spec = .ok [] := by
  unfold freezeDoc at h
  cases hv : validateBeforeFreeze spec with
  | error e => rw [hv] at h; simp at h
  | ok errs =>
    rw [hv] at h
    cases herrs : errs with
    | nil => rfl
    | cons a t => rw [herrs] at h; simp [List.isEmpty] at h

/-! ## Well-typedness: the conditions under which the validator cannot throw -/

/-- A value that is safe to `.toLowerCase()` when truthy: falsy or a
string. -/
def strOrFalsy (v : JSValue) : Bool :=
  !truthy v || (match v with | .str _ => true | _ => false)

/-- The `oracle.condition` value the validator would lowercase (only read
when `oracle` is truthy). -/
def oracleCondOf (f : JSValue) : JSValue :=
  if truthy (propD f "oracle") then propD (propD f "oracle") "condition" else .undefined

/-- The `evidence.criteria` value `lint` would lowercase (only read when
`evidence` is truthy). -/
def criteriaOf (f : JSValue) : JSValue :=
  if truthy (propD f "evidence") then propD (propD f "evidence") "criteria" else .undefined

/-- An entry on which `validateFailure` does not throw: not
`null`/`undefined`, and a truthy `oracle.condition` is a string. -/
def entryNoThrow (f : JSValue) : Bool :=
  match f with
  | .null => false
  | .undefined => false
  | _ => strOrFalsy (oracleCondOf f)

/-- An entry on which the `lint` loop body does not throw: a truthy
`title` and a truthy `evidence.criteria` are strings. -/
def entryLintOk (f : JSValue) : Bool :=
  match f with
  | .null => false
  | .undefined => false
  | _ => strOrFalsy (propD f "title") && strOrFalsy (criteriaOf f)

/-- A document on which `validate` neither throws nor exits: not
`null`/`undefined`, no truthy `error` field, and when `failures` is an
array every entry is throw-free (also for `lint` when the lint option is
set). -/
def specWellTyped (lintOpt : Bool) (spec : JSValue) : Bool :=
  match spec with
  | .null => false
  | .undefined => false
  | _ =>
    !truthy (propD spec "error") &&
    (match propD spec "failures" with
     | .arr xs => xs.all (fun f => entryNoThrow f && (!lintOpt || entryLintOk f))
     | _ => true)

/-- The id block never throws on a non-`null` entry. -/
theorem checkId_ok {f : JSValue} (hn : f ≠ .null) (hu : f ≠ .undefined) (pfx : String) :
    ∃ l, checkId pfx f = .ok l := by
  simp only [checkId, getProp_eq_ok hn hu]
  exact ⟨_, rfl⟩

/-- The title block never throws on a non-`null` entry. -/
theorem checkTitle_ok {f : JSValue} (hn : f ≠ .null) (hu : f ≠ .undefined) (pfx : String) :
    ∃ l, checkTitle pfx f = .ok l := by
  simp only [checkTitle, getProp_eq_ok hn hu]
  by_cases ht : truthy (propD f "title") = true
  · obtain ⟨h1, h2⟩ := truthy_ne _ ht
    simp only [ht, getProp_eq_ok h1 h2, Bool.not_true, Bool.false_eq_true, if_false]
    exact ⟨_, rfl⟩
  · rw [Bool.not_eq_true] at ht
    simp only [ht, Bool.not_false, if_true]
    exact ⟨_, rfl⟩

/-- The severity block never throws on a non-`null` entry. -/
theorem checkSeverity_ok {f : JSValue} (hn : f ≠ .null) (hu : f ≠ .undefined) (pfx : String) :
    ∃ l, checkSeverity pfx f = .ok l := by
  simp only [checkSeverity, getProp_eq_ok hn hu]
  exact ⟨_, rfl⟩

/-- The oracle block never throws on a non-`null` entry whose truthy
`oracle.condition` is a string. -/
theorem checkOracle_ok {f : JSValue} (hn : f ≠ .null) (hu : f ≠ .undefined)
    (hcond : strOrFalsy (oracleCondOf f) = true) (pfx : String) :
    ∃ l, checkOracle pfx f = .ok l := by
  simp only [checkOracle, getProp_eq_ok hn hu]
  by_cases ho : truthy (propD f "oracle") = true
  · obtain ⟨h1, h2⟩ := truthy_ne _ ho
    simp only [ho, getProp_eq_ok h1 h2, Bool.not_true, Bool.false_eq_true, if_false]
    rw [oracleCondOf, if_pos ho] at hcond
    by_cases hc : truthy (propD (propD f "oracle") "condition") = true
    · have hstr : ∃ s, propD (propD f "oracle") "condition" = .str s := by
        cases hcv : propD (propD f "oracle") "condition" with
        | str s => exact ⟨s, rfl⟩
        | undefined => rw [hcv] at hc; simp [truthy] at hc
        | null => rw [hcv] at hc; simp [truthy] at hc
        | bool b =>
          rw [hcv] at hc hcond
          simp [truthy] at hc
          simp [strOrFalsy, truthy, hc] at hcond
        | num n =>
          rw [hcv] at hc hcond
          simp [truthy] at hc
          simp [strOrFalsy, truthy, hc] at hcond
        | arr xs => rw [hcv] at hcond; simp [strOrFalsy, truthy] at hcond
        | obj fs => rw [hcv] at hcond; simp [strOrFalsy, truthy] at hcond
      obtain ⟨s, hstr⟩ := hstr
      rw [hstr] at hc
      simp only [hstr, hc, Bool.not_true, Bool.false_eq_true, if_false, toLowerCaseCall]
      exact ⟨_, rfl⟩
    · rw [Bool.not_eq_true] at hc
      simp only [hc, Bool.not_false, if_true]
      exact ⟨_, rfl⟩
  · rw [Bool.not_eq_true] at ho
    simp only [ho, Bool.not_false, if_true]
    exact ⟨_, rfl⟩

/-- The repro block never throws on a non-`null` entry. -/
theorem checkRepro_ok {f : JSValue} (hn : f ≠ .null) (hu : f ≠ .undefined) (pfx : String) :
    ∃ l, checkRepro pfx f = .ok l := by
  simp only [checkRepro, getProp_eq_ok hn hu]
  by_cases hr : truthy (propD f "repro") = true
  · obtain ⟨h1, h2⟩ := truthy_ne _ hr
    simp only [hr, getProp_eq_ok h1 h2, Bool.not_true, Bool.false_eq_true, if_false]
    exact ⟨_, rfl⟩
  · rw [Bool.not_eq_true] at hr
    simp only [hr, Bool.not_false, if_true]
    exact ⟨_, rfl⟩

/-- The evidence block never throws on a non-`null` entry. -/
theorem checkEvidence_ok {f : JSValue} (hn : f ≠ .null) (hu : f ≠ .undefined) (pfx : String) :
    ∃ l, checkEvidence pfx f = .ok l := by
  simp only [checkEvidence, getProp_eq_ok hn hu]
  by_cases he : truthy (propD f "evidence") = true
  · obtain ⟨h1, h2⟩ := truthy_ne _ he
    simp only [he, getProp_eq_ok h1 h2, Bool.not_true, Bool.false_eq_true, if_false]
    exact ⟨_, rfl⟩
  · rw [Bool.not_eq_true] at he
    simp only [he, Bool.not_false, if_true]
    exact ⟨_, rfl⟩

/-- The nested missing-record pattern shared by the `verified` and
`accepted_risk` branches of the status block never throws. -/
theorem innerPair_ok (vf : JSValue) (key2 : String) (m1 m2 : VEntry) :
    ∃ l, (if (!truthy vf) = true then Except.ok [m1]
      else match getProp vf key2 with
        | .error e => Except.error e
        | .ok evd => Except.ok (if (!truthy evd) = true then [m2] else [])) =
      (Except.ok l : Except String (List VEntry)) := by
  by_cases hvf : truthy vf = true
  · obtain ⟨h3, h4⟩ := truthy_ne _ hvf
    simp only [hvf, getProp_eq_ok h3 h4, Bool.not_true, Bool.false_eq_true, if_false]
    exact ⟨_, rfl⟩
  · rw [Bool.not_eq_true] at hvf
    simp only [hvf, Bool.not_false, if_true]
    exact ⟨_, rfl⟩

/-- The status block never throws on a non-`null` entry. -/
theorem checkStatus_ok {f : JSValue} (hn : f ≠ .null) (hu : f ≠ .undefined) (pfx : String) :
    ∃ l, checkStatus pfx f = .ok l := by
  simp only [checkStatus, getProp_eq_ok hn hu]
  by_cases hs : truthy (propD f "status") = true
  · obtain ⟨h1, h2⟩ := truthy_ne _ hs
    simp only [hs, getProp_eq_ok h1 h2, Bool.not_true, Bool.false_eq_true, if_false]
    by_cases hv : jsStrictEqStr (propD (propD f "status") "state") "verified" = true
    · simp only [hv, if_true]
      obtain ⟨l2, hl2⟩ := innerPair_ok (propD (propD f "status") "verification") "evidence"
        (pfx ++ ".status.verification", "State is verified but verification is missing")
        (pfx ++ ".status.verification.evidence", "Verification must include evidence")
      rw [hl2]
      by_cases hr : jsStrictEqStr (propD (propD f "status") "state") "accepted_risk" = true
      · simp only [hr, if_true]
        obtain ⟨l3, hl3⟩ := innerPair_ok (propD (propD f "status") "risk_acceptance") "accepted_by"
          (pfx ++ ".status.risk_acceptance", "State is accepted_risk but risk_acceptance is missing")
          (pfx ++ ".status.risk_acceptance.accepted_by", "risk_acceptance must include accepted_by")
        rw [hl3]
        exact ⟨_, rfl⟩
      · rw [Bool.not_eq_true] at hr
        simp only [hr, Bool.false_eq_true, if_false]
        exact ⟨_, rfl⟩
    · rw [Bool.not_eq_true] at hv
      simp only [hv, Bool.false_eq_true, if_false]
      by_cases hr : jsStrictEqStr (propD (propD f "status") "state") "accepted_risk" = true
      · simp only [hr, if_true]
        obtain ⟨l3, hl3⟩ := innerPair_ok (propD (propD f "status") "risk_acceptance") "accepted_by"
          (pfx ++ ".status.risk_acceptance", "State is accepted_risk but risk_acceptance is missing")
          (pfx ++ ".status.risk_acceptance.accepted_by", "risk_acceptance must include accepted_by")
        rw [hl3]
        exact ⟨_, rfl⟩
      · rw [Bool.not_eq_true] at hr
        simp only [hr, Bool.false_eq_true, if_false]
        exact ⟨_, rfl⟩
  · rw [Bool.not_eq_true] at hs
    simp only [hs, Bool.not_false, if_true]
    exact ⟨_, rfl⟩

/-- The ownership block never throws on a non-`null` entry. -/
theorem checkOwnership_ok {f : JSValue} (hn : f ≠ .null) (hu : f ≠ .undefined) (pfx : String) :
    ∃ l, checkOwnership pfx f = .ok l := by
  simp only [checkOwnership, getProp_eq_ok hn hu]
  by_cases ho : jsStrictEqStr (propD f "ownership") "inherited" = true
  · simp only [ho, if_true]
    exact ⟨_, rfl⟩
  · rw [Bool.not_eq_true] at ho
    simp only [ho, Bool.false_eq_true, if_false]
    exact ⟨_, rfl⟩

/-! ## Totality of the validator on well-typed documents -/

/-- Unpacking `entryNoThrow`. -/
theorem entryNoThrow_parts {f : JSValue} (h : entryNoThrow f = true) :
    f ≠ .null ∧ f ≠ .undefined ∧ strOrFalsy (oracleCondOf f) = true := by
  refine ⟨?_, ?_, ?_⟩
  · rintro rfl; simp [entryNoThrow] at h
  · rintro rfl; simp [entryNoThrow] at h
  · cases f <;> simp_all [entryNoThrow]

/-- Unpacking `entryLintOk`. -/
theorem entryLintOk_parts {f : JSValue} (h : entryLintOk f = true) :
    f ≠ .null ∧ f ≠ .undefined ∧ strOrFalsy (propD f "title") = true ∧
    strOrFalsy (criteriaOf f) = true := by
  refine ⟨?_, ?_, ?_, ?_⟩
  · rintro rfl; simp [entryLintOk] at h
  · rintro rfl; simp [entryLintOk] at h
  · cases f <;> simp_all [entryLintOk]
  · cases f <;> simp_all [entryLintOk]

/-- Unpacking `specWellTyped`. -/
theorem specWellTyped_parts {lintOpt : Bool} {spec : JSValue}
    (h : specWellTyped lintOpt spec = true) :
    spec ≠ .null ∧ spec ≠ .undefined ∧ truthy (propD spec "error") = false ∧
    (∀ xs, propD spec "failures" = .arr xs → ∀ f ∈ xs,
      entryNoThrow f = true ∧ (lintOpt = true → entryLintOk f = true)) := by
  refine ⟨?_, ?_, ?_, ?_⟩
  · rintro rfl; simp [specWellTyped] at h
  · rintro rfl; simp [specWellTyped] at h
  · cases f : spec <;> simp_all [specWellTyped] <;> cases truthy (propD spec "error") <;> simp_all
  · intro xs hxs f hf
    have hb : (match propD spec "failures" with
        | JSValue.arr xs => xs.all (fun f => entryNoThrow f && (!lintOpt || entryLintOk f))
        | _ => true) = true := by
      cases spec <;> simp_all [specWellTyped] <;> tauto
    rw [hxs] at hb
    simp only [List.all_eq_true] at hb
    have := hb f hf
    rw [Bool.and_eq_true, Bool.or_eq_true] at this
    refine ⟨this.1, ?_⟩
    intro hl
    rcases this.2 with hno | hy
    · rw [hl] at hno; simp at hno
    · exact hy

/-- A value certified string-or-falsy that is truthy is a string. -/
theorem strOrFalsy_truthy {v : JSValue} (h : strOrFalsy v = true)
    (ht : truthy v = true) : ∃ s, v = .str s := by
  cases v <;> simp_all [strOrFalsy, truthy]

/-- The function `validateSchema` never throws on a non-`null` document. -/
theorem validateSchema_ok {spec : JSValue} (hn : spec ≠ .null) (hu : spec ≠ .undefined) :
    ∃ l, validateSchema spec = .ok l := by
  simp only [validateSchema, getProp_eq_ok hn hu]
  by_cases hmd : truthy (propD spec "metadata") = true
  · obtain ⟨h1, h2⟩ := truthy_ne _ hmd
    simp only [hmd, getProp_eq_ok h1 h2, Bool.not_true, Bool.false_eq_true, if_false]
    exact ⟨_, rfl⟩
  · rw [Bool.not_eq_true] at hmd
    simp only [hmd, Bool.not_false, if_true]
    exact ⟨_, rfl⟩

/-- The function `validateFailure` never throws on a throw-free entry; its pushed
errors start with the id-block errors. -/
theorem validateFailure_ok {f : JSValue} (h : entryNoThrow f = true) (i : Nat) :
    ∃ l1 lrest, validateFailure f i = .ok (l1 ++ lrest) ∧
      checkId ("failures[" ++ toString i ++ "]") f = .ok l1 := by
  obtain ⟨hn, hu, hcond⟩ := entryNoThrow_parts h
  obtain ⟨l1, h1⟩ := checkId_ok hn hu ("failures[" ++ toString i ++ "]")
  obtain ⟨l2, h2⟩ := checkTitle_ok hn hu ("failures[" ++ toString i ++ "]")
  obtain ⟨l3, h3⟩ := checkSeverity_ok hn hu ("failures[" ++ toString i ++ "]")
  obtain ⟨l4, h4⟩ := checkOracle_ok hn hu hcond ("failures[" ++ toString i ++ "]")
  obtain ⟨l5, h5⟩ := checkRepro_ok hn hu ("failures[" ++ toString i ++ "]")
  obtain ⟨l6, h6⟩ := checkEvidence_ok hn hu ("failures[" ++ toString i ++ "]")
  obtain ⟨l7, h7⟩ := checkStatus_ok hn hu ("failures[" ++ toString i ++ "]")
  obtain ⟨l8, h8⟩ := checkOwnership_ok hn hu ("failures[" ++ toString i ++ "]")
  refine ⟨l1, l2 ++ (l3 ++ (l4 ++ (l5 ++ (l6 ++ (l7 ++ l8))))), ?_, h1⟩
  simp only [validateFailure, h1, h2, h3, h4, h5, h6, h7, h8, seqE]

/-- The per-failure loop never throws when every entry is throw-free. -/
theorem validateFailures_ok (xs : List JSValue)
    (hall : ∀ f ∈ xs, entryNoThrow f = true) (i : Nat) :
    ∃ L, validateFailures i xs = .ok L := by
  induction xs generalizing i with
  | nil => exact ⟨[], rfl⟩
  | cons f t ih =>
    obtain ⟨l1, lrest, hf, _⟩ := validateFailure_ok (hall f (by simp)) i
    obtain ⟨L, hL⟩ := ih (fun g hg => hall g (by simp [hg])) (i + 1)
    refine ⟨(l1 ++ lrest) ++ L, ?_⟩
    simp only [validateFailures, hf, hL, seqE]

/-- When the id block of some entry pushes an error, the per-failure loop
reports a non-empty error list. -/
theorem validateFailures_nonnil {as bs : List JSValue} {f : JSValue} {i : Nat}
    (hall : ∀ g ∈ as ++ f :: bs, entryNoThrow g = true)
    (hne : ∀ l1, checkId ("failures[" ++ toString (i + as.length) ++ "]") f = .ok l1 → l1 ≠ []) :
    ∃ L, validateFailures i (as ++ f :: bs) = .ok L ∧ L ≠ [] := by
  induction as generalizing i with
  | nil =>
    obtain ⟨l1, lrest, hf, hid⟩ := validateFailure_ok (hall f (by simp)) i
    obtain ⟨L, hL⟩ := validateFailures_ok bs (fun g hg => hall g (by simp [hg])) (i + 1)
    refine ⟨(l1 ++ lrest) ++ L, ?_, ?_⟩
    · simp only [List.nil_append, validateFailures, hf, hL, seqE]
    · have : l1 ≠ [] := hne l1 (by simpa using hid)
      cases l1 <;> simp_all
  | cons a t ih =>
    obtain ⟨l1, lrest, ha, _⟩ := validateFailure_ok (hall a (by simp)) i
    have hall2 : ∀ g ∈ t ++ f :: bs, entryNoThrow g = true := by
      intro g hg
      exact hall g (by simp at hg ⊢; tauto)
    have hne2 : ∀ l1, checkId ("failures[" ++ toString ((i + 1) + t.length) ++ "]") f = .ok l1 → l1 ≠ [] := by
      have harith : (i + 1) + t.length = i + (a :: t).length := by simp; omega
      rw [harith]
      exact hne
    obtain ⟨L, hL, hLne⟩ := ih hall2 hne2
    refine ⟨(l1 ++ lrest) ++ L, ?_, ?_⟩
    · simp only [List.cons_append, validateFailures, ha, seqE, List.append_eq, hL]
    · cases L
      · simp at hLne
      · cases l1 <;> simp_all

/-- The title block of the `lint` loop never throws when a truthy title is
a string. -/
theorem lintTitlePart_ok {t : JSValue} (ht : strOrFalsy t = true)
    (pfx : String) (titles : List String) :
    ∃ ws titles2, lintTitlePart pfx titles t = .ok (ws, titles2) := by
  by_cases htt : truthy t = true
  · obtain ⟨s, rfl⟩ := strOrFalsy_truthy ht htt
    simp only [lintTitlePart, htt, if_true, toLowerCaseCall]
    exact ⟨_, _, rfl⟩
  · rw [Bool.not_eq_true] at htt
    simp only [lintTitlePart, htt, Bool.false_eq_true, if_false]
    exact ⟨_, _, rfl⟩

/-- The severity block of the `lint` loop never throws on a non-`null`
entry. -/
theorem lintSevPart_ok {f : JSValue} (hn : f ≠ .null) (hu : f ≠ .undefined) (pfx : String) :
    ∃ ws, lintSevPart pfx f = .ok ws := by
  simp only [lintSevPart, getProp_eq_ok hn hu]
  by_cases hs : (jsStrictEqStr (propD f "severity") "critical" || jsStrictEqStr (propD f "severity") "high") = true
  · simp only [hs, if_true]
    exact ⟨_, rfl⟩
  · rw [Bool.not_eq_true] at hs
    simp only [hs, Bool.false_eq_true, if_false]
    exact ⟨_, rfl⟩

/-- The criteria block of the `lint` loop never throws on a non-`null`
entry whose truthy `evidence.criteria` is a string. -/
theorem lintCritPart_ok {f : JSValue} (hn : f ≠ .null) (hu : f ≠ .undefined)
    (hcrit : strOrFalsy (criteriaOf f) = true) (pfx : String) :
    ∃ ws, lintCritPart pfx f = .ok ws := by
  simp only [lintCritPart, getProp_eq_ok hn hu]
  by_cases he : truthy (propD f "evidence") = true
  · obtain ⟨h1, h2⟩ := truthy_ne _ he
    simp only [he, getProp_eq_ok h1 h2, if_true]
    rw [criteriaOf, if_pos he] at hcrit
    by_cases hc : truthy (propD (propD f "evidence") "criteria") = true
    · obtain ⟨s, hs⟩ := strOrFalsy_truthy hcrit hc
      rw [hs] at hc
      simp only [hs, hc, if_true, toLowerCaseCall]
      exact ⟨_, rfl⟩
    · rw [Bool.not_eq_true] at hc
      simp only [hc, Bool.false_eq_true, if_false]
      exact ⟨_, rfl⟩
  · rw [Bool.not_eq_true] at he
    simp only [he, Bool.false_eq_true, if_false]
    exact ⟨_, rfl⟩

/-- The `lint` loop body never throws on a lint-safe entry; its pushed
errors and the updated id set are exactly those of the id block. -/
theorem lintEntry_ok {f : JSValue} (h : entryLintOk f = true)
    (pfx : String) (ids : List JSValue) (titles : List String) :
    ∃ ws titles2, lintEntry f pfx ids titles =
      .ok ((lintIdPart pfx ids (propD f "id")).1, ws,
           (lintIdPart pfx ids (propD f "id")).2, titles2) := by
  obtain ⟨hn, hu, ht, hcrit⟩ := entryLintOk_parts h
  obtain ⟨w1, titles2, h1⟩ := lintTitlePart_ok ht pfx titles
  obtain ⟨w2, h2⟩ := lintSevPart_ok hn hu pfx
  obtain ⟨w3, h3⟩ := lintCritPart_ok hn hu hcrit pfx
  refine ⟨w1 ++ w2 ++ w3, titles2, ?_⟩
  simp only [lintEntry, getProp_eq_ok hn hu, h1, h2, h3]

/-- The `lint` loop never throws on lint-safe entries, and only ever
extends the id set. -/
theorem lintRun_ok (xs : List JSValue) (hall : ∀ f ∈ xs, entryLintOk f = true)
    (i : Nat) (ids : List JSValue) (titles : List String) :
    ∃ es ws ids2 titles2, lintRun i ids titles xs = .ok (es, ws, ids2, titles2) ∧
      ∀ v ∈ ids, v ∈ ids2 := by
  induction xs generalizing i ids titles with
  | nil => exact ⟨[], [], ids, titles, rfl, fun v hv => hv⟩
  | cons f t ih =>
    obtain ⟨ws, titles2, hf⟩ := lintEntry_ok (hall f (by simp))
      ("failures[" ++ toString i ++ "]") ids titles
    obtain ⟨es2, ws2, ids3, titles3, hrest, hsub⟩ :=
      ih (fun g hg => hall g (by simp [hg])) (i + 1)
        (lintIdPart ("failures[" ++ toString i ++ "]") ids (propD f "id")).2 titles2
    refine ⟨(lintIdPart ("failures[" ++ toString i ++ "]") ids (propD f "id")).1 ++ es2,
      ws ++ ws2, ids3, titles3, ?_, ?_⟩
    · simp only [lintRun, hf, hrest]
    · intro v hv
      apply hsub
      rw [lintIdPart]
      by_cases hfid : truthy (propD f "id") = true
      · simp only [hfid, if_true]
        simp [hv]
      · rw [Bool.not_eq_true] at hfid
        simp only [hfid, Bool.false_eq_true, if_false]
        exact hv

/-- Once a truthy id value is in the id set, a later entry with the same
(string) id makes the `lint` loop push a duplicate-id error. -/
theorem lintRun_dup (xs : List JSValue) (hall : ∀ f ∈ xs, entryLintOk f = true)
    (v : JSValue) (hv : truthy v = true) (hsvz : jsSVZ v v = true)
    (i : Nat) (ids : List JSValue) (titles : List String) (hmem : v ∈ ids)
    (hwit : ∃ f ∈ xs, propD f "id" = v) :
    ∃ es ws ids2 titles2, lintRun i ids titles xs = .ok (es, ws, ids2, titles2) ∧
      es ≠ [] := by
  induction xs generalizing i ids titles with
  | nil => simp at hwit
  | cons f t ih =>
    obtain ⟨ws, titles2, hf⟩ := lintEntry_ok (hall f (by simp))
      ("failures[" ++ toString i ++ "]") ids titles
    rcases hwit with ⟨g, hg, hgid⟩
    rw [List.mem_cons] at hg
    by_cases hcase : propD f "id" = v
    · -- the head entry carries the duplicate id: the id block pushes
      obtain ⟨es2, ws2, ids3, titles3, hrest, _⟩ :=
        lintRun_ok t (fun g hg => hall g (by simp [hg])) (i + 1)
          (lintIdPart ("failures[" ++ toString i ++ "]") ids (propD f "id")).2 titles2
      refine ⟨(lintIdPart ("failures[" ++ toString i ++ "]") ids (propD f "id")).1 ++ es2,
        ws ++ ws2, ids3, titles3, ?_, ?_⟩
      · simp only [lintRun, hf, hrest]
      · have hany : ids.any (fun w => jsSVZ w (propD f "id")) = true := by
          rw [hcase]
          exact List.any_eq_true.mpr ⟨v, hmem, hsvz⟩
        rw [lintIdPart, hcase, hv]
        simp only [if_true, hcase ▸ hany]
        simp
    · have hwit2 : ∃ g ∈ t, propD g "id" = v := by
        rcases hg with rfl | hgt
        · exact absurd hgid hcase
        · exact ⟨g, hgt, hgid⟩
      have hmem2 : v ∈ (lintIdPart ("failures[" ++ toString i ++ "]") ids (propD f "id")).2 := by
        rw [lintIdPart]
        by_cases hfid : truthy (propD f "id") = true
        · simp only [hfid, if_true]
          simp [hmem]
        · rw [Bool.not_eq_true] at hfid
          simp only [hfid, Bool.false_eq_true, if_false]
          exact hmem
      obtain ⟨es2, ws2, ids3, titles3, hrest, hne⟩ :=
        ih (fun g hg => hall g (by simp [hg])) (i + 1) _ titles2 hmem2 hwit2
      refine ⟨(lintIdPart ("failures[" ++ toString i ++ "]") ids (propD f "id")).1 ++ es2,
        ws ++ ws2, ids3, titles3, ?_, ?_⟩
      · simp only [lintRun, hf, hrest]
      · cases es2
        · simp at hne
        · cases (lintIdPart ("failures[" ++ toString i ++ "]") ids (propD f "id")).1 <;> simp_all

/-- Splitting the `lint` loop over an append. -/
theorem lintRun_append (as bs : List JSValue) (i : Nat) (ids : List JSValue)
    (titles : List String) :
    lintRun i ids titles (as ++ bs) =
      match lintRun i ids titles as with
      | .error e => .error e
      | .ok (es, ws, ids2, titles2) =>
        match lintRun (i + as.length) ids2 titles2 bs with
        | .error e => .error e
        | .ok (es2, ws2, ids3, titles3) => .ok (es ++ es2, ws ++ ws2, ids3, titles3) := by
  induction as generalizing i ids titles with
  | nil =>
    simp only [List.nil_append, lintRun, List.length_nil, Nat.add_zero]
    cases h : lintRun i ids titles bs with
    | error e => rfl
    | ok q =>
      obtain ⟨es, ws, ids2, titles2⟩ := q
      simp
  | cons a t ih =>
    simp only [List.cons_append, lintRun, List.append_eq]
    have harith : i + 1 + t.length = i + (a :: t).length := by
      simp
      omega
    cases he : lintEntry a ("failures[" ++ toString i ++ "]") ids titles with
    | error e => rfl
    | ok q =>
      obtain ⟨es, ws, ids2, titles2⟩ := q
      simp only [ih, harith]
      cases h2 : lintRun (i + 1) ids2 titles2 t with
      | error e => simp
      | ok q2 =>
        obtain ⟨es2, ws2, ids3, titles3⟩ := q2
        simp only [h2]
        cases h3 : lintRun (i + (a :: t).length) ids3 titles3 bs with
        | error e => simp
        | ok q3 =>
          obtain ⟨es3, ws3, ids4, titles4⟩ := q3
          simp [h3, List.append_assoc]

/-- The tail of `lint` (the frozen-document warning) never throws on a
non-`null` document. -/
theorem lintTail_ok {spec : JSValue} (hn : spec ≠ .null) (hu : spec ≠ .undefined)
    (es ws : List VEntry) :
    ∃ ws2, (if truthy (propD spec "metadata") = true then
        match getProp (propD spec "metadata") "frozen_at" with
        | .error e => Except.error e
        | .ok fz =>
          Except.ok (es, ws ++ (if truthy fz = true then
            [("metadata", "Spec is frozen. Modifications should go to discoveries.")]
          else []))
      else Except.ok (es, ws)) = (Except.ok (es, ws2) : Except String (List VEntry × List VEntry)) := by
  by_cases hmd : truthy (propD spec "metadata") = true
  · obtain ⟨h1, h2⟩ := truthy_ne _ hmd
    simp only [hmd, getProp_eq_ok h1 h2, if_true]
    exact ⟨_, rfl⟩
  · rw [Bool.not_eq_true] at hmd
    simp only [hmd, Bool.false_eq_true, if_false]
    exact ⟨_, rfl⟩

/-- When `failures` is an array, `lint` reports exactly the errors of the loop. -/
theorem lint_arr {spec : JSValue} (hn : spec ≠ .null) (hu : spec ≠ .undefined)
    {xs : List JSValue} (hfl : propD spec "failures" = .arr xs)
    {es ws : List VEntry} {ids2 : List JSValue} {titles2 : List String}
    (hrun : lintRun 0 [] [] xs = .ok (es, ws, ids2, titles2)) :
    ∃ ws2, lint spec = .ok (es, ws2) := by
  simp only [lint, getProp_eq_ok hn hu, hfl]
  have htr : truthy (JSValue.arr xs) = true := rfl
  simp only [htr, Bool.not_true, Bool.false_eq_true, if_false, hrun]
  exact lintTail_ok hn hu es ws

/-- The function `lint` never throws on a document whose entries are all lint-safe. -/
theorem lint_ok_total {spec : JSValue} (hn : spec ≠ .null) (hu : spec ≠ .undefined)
    (hall : ∀ xs, propD spec "failures" = .arr xs → ∀ f ∈ xs, entryLintOk f = true) :
    ∃ r, lint spec = .ok r := by
  simp only [lint, getProp_eq_ok hn hu]
  by_cases hfl : truthy (propD spec "failures") = true
  · simp only [hfl, Bool.not_true, Bool.false_eq_true, if_false]
    cases harr : propD spec "failures" with
    | arr xs =>
      obtain ⟨es, ws, ids2, titles2, hrun, _⟩ := lintRun_ok xs (hall xs harr) 0 [] []
      simp only [hrun]
      obtain ⟨ws2, hw⟩ := lintTail_ok hn hu es ws
      exact ⟨(es, ws2), hw⟩
    | undefined =>
      obtain ⟨ws2, hw⟩ := lintTail_ok hn hu [] []
      exact ⟨([], ws2), hw⟩
    | null =>
      obtain ⟨ws2, hw⟩ := lintTail_ok hn hu [] []
      exact ⟨([], ws2), hw⟩
    | bool b =>
      obtain ⟨ws2, hw⟩ := lintTail_ok hn hu [] []
      exact ⟨([], ws2), hw⟩
    | num n =>
      obtain ⟨ws2, hw⟩ := lintTail_ok hn hu [] []
      exact ⟨([], ws2), hw⟩
    | str s =>
      obtain ⟨ws2, hw⟩ := lintTail_ok hn hu [] []
      exact ⟨([], ws2), hw⟩
    | obj fs =>
      obtain ⟨ws2, hw⟩ := lintTail_ok hn hu [] []
      exact ⟨([], ws2), hw⟩
  · rw [Bool.not_eq_true] at hfl
    simp only [hfl, Bool.not_false, if_true]
    exact ⟨_, rfl⟩

/-- The function `validate` returns an `errors`/`warnings` result on every well-typed
document. -/
theorem validate_ok {lintOpt : Bool} {spec : JSValue}
    (h : specWellTyped lintOpt spec = true) :
    ∃ r, validate lintOpt spec = .ok r := by
  obtain ⟨hn, hu, herr, hfl⟩ := specWellTyped_parts h
  simp only [validate, getProp_eq_ok hn hu, herr, Bool.false_eq_true, if_false]
  obtain ⟨e0, h0⟩ := validateSchema_ok hn hu
  rw [h0]
  have hF : ∃ eF, (match propD spec "failures" with
      | JSValue.arr xs => validateFailures 0 xs
      | _ => Except.ok []) = (Except.ok eF : Except String (List VEntry)) := by
    cases harr : propD spec "failures" with
    | arr xs => exact validateFailures_ok xs (fun f hf => (hfl xs harr f hf).1) 0
    | undefined => exact ⟨[], rfl⟩
    | null => exact ⟨[], rfl⟩
    | bool b => exact ⟨[], rfl⟩
    | num n => exact ⟨[], rfl⟩
    | str s => exact ⟨[], rfl⟩
    | obj fs => exact ⟨[], rfl⟩
  obtain ⟨eF, hFe⟩ := hF
  rw [hFe]
  cases lintOpt with
  | false => exact ⟨_, rfl⟩
  | true =>
    obtain ⟨r, hr⟩ := lint_ok_total hn hu (fun xs hxs f hf => (hfl xs hxs f hf).2 rfl)
    cases r with
    | mk eL wL =>
      rw [hr]
      exact ⟨_, rfl⟩

/-! ## Helpers for the CLI command model -/

/-- The function `truthyOpt` yields a value exactly for a supplied non-empty string. -/
theorem truthyOpt_eq_some {a : Option String} {e : String} :
    truthyOpt a = some e ↔ a = some e ∧ e ≠ "" := by
  constructor
  · intro h
    cases a with
    | none => simp [truthyOpt] at h
    | some s =>
      by_cases hs : s = ""
      · subst hs
        simp [truthyOpt] at h
      · simp [truthyOpt, hs] at h
        subst h
        exact ⟨rfl, hs⟩
  · rintro ⟨rfl, hne⟩
    simp [truthyOpt, hne]

/-- The function `truthyOpt` yields nothing exactly for a missing or empty value. -/
theorem truthyOpt_eq_none {a : Option String} :
    truthyOpt a = none ↔ a = none ∨ a = some "" := by
  cases a with
  | none => simp [truthyOpt]
  | some s =>
    by_cases hs : s = ""
    · subst hs
      simp [truthyOpt]
    · simp [truthyOpt, hs]

/-- Mutating the found entry leaves it the first match when its id is kept. -/
theorem findFailure_saveWith {spec : FailureSpecDoc} {id : String} {f : Failure}
    (h : findFailure spec id = some f) (upd : Failure → Failure)
    (hid : (upd f).id = f.id) :
    findFailure (saveWith spec id upd) id = some (upd f) := by
  unfold findFailure at h ⊢
  unfold saveWith
  apply find?_updateFirst _ _ _ _ h
  have hp := List.find?_some h
  rw [hid]
  exact hp

/-- List search `find?` locates the first entry with a given stored id. -/
theorem find?_first_id {pre post : List Failure} {f : Failure} {u : String}
    (hpre : ∀ g ∈ pre, g.id ≠ u) (hf : f.id = u) :
    List.find? (fun g => g.id == u) (pre ++ f :: post) = some f := by
  induction pre with
  | nil =>
    rw [List.nil_append]
    rw [List.find?_cons_of_pos]
    simp [hf]
  | cons a t ih =>
    rw [List.cons_append, List.find?_cons_of_neg]
    · exact ih (fun g hg => hpre g (by simp [hg]))
    · simp
      exact hpre a (by simp)

/-- The first entry with a given stored id is found when the supplied id
uppercases to it. -/
theorem findFailure_first {spec : FailureSpecDoc} {pre post : List Failure} {f : Failure}
    {id : String} (hsplit : spec.failures = pre ++ f :: post)
    (hpre : ∀ g ∈ pre, g.id ≠ jsToUpper id) (hf : f.id = jsToUpper id) :
    findFailure spec id = some f := by
  unfold findFailure
  rw [hsplit]
  exact find?_first_id hpre hf

/-- On success, `accept-risk` stamps the risk-acceptance record on the
addressed entry and sets its state, whatever its prior state was. -/
theorem acceptRisk_ok_helper {now : String} {spec : FailureSpecDoc} {id : String}
    {reason acceptedBy reviewBy : Option String} {f : Failure} {r b : String}
    (hf : findFailure spec id = some f) (hr : reason = some r) (hrne : r ≠ "")
    (hb : acceptedBy = some b) (hbne : b ≠ "") (hagent : isAgentIdentity b = false) :
    ∃ d, acceptRiskCmd now spec id reason acceptedBy reviewBy = .ok d ∧
      findFailure d id = some { f with
        status := some { (f.status.getD FStatus.empty) with
                         state := some "accepted_risk",
                         risk_acceptance := some { reason := r,
                                                   accepted_by := b,
                                                   accepted_at := now,
                                                   review_by := truthyOpt reviewBy } } } := by
  have hro : truthyOpt reason = some r := truthyOpt_eq_some.mpr ⟨hr, hrne⟩
  have hbo : truthyOpt acceptedBy = some b := truthyOpt_eq_some.mpr ⟨hb, hbne⟩
  refine ⟨saveWith spec id (fun g =>
    { g with status := some { (f.status.getD FStatus.empty) with
                              state := some "accepted_risk",
                              risk_acceptance := some { reason := r,
                                                        accepted_by := b,
                                                        accepted_at := now,
                                                        review_by := truthyOpt reviewBy } } }),
    ?_, ?_⟩
  · rw [acceptRiskCmd, hf, hro, hbo]
    simp only [hagent, Bool.false_eq_true, if_false]
  · exact findFailure_saveWith hf _ rfl

/-! ## Concrete documents for witnesses and counterexamples -/

/-- A stand-in for the external sha256 facility, used only to instantiate
witnesses. -/
def h0 : String → String := fun s => "sha256:" ++ s

/-- The guardrail record of the concrete documents. -/
def g0 : Guardrail :=
  { design := "rate limit", location := "src/app.js:1",
    implementedBy := "bob", implemented_at := "T0" }

/-- The status record of the claimed entry `F001`. -/
def st0c : FStatus :=
  { state := some "claimed", guardrail := some g0,
    verification := none, rejection := none, risk_acceptance := none }

/-- A claimed entry `F001`. -/
def f0 : Failure :=
  { id := "F001", title := "Bypass", severity := "critical", status := some st0c }

/-- The unfrozen metadata of the concrete documents. -/
def md0 : SpecMetadata :=
  { feature := "Demo", created_by := "alice", frozen_at := none, frozen_commit := none }

/-- A document with the single claimed entry `F001`. -/
def specClaimed : FailureSpecDoc :=
  { version := "1.0", metadata := md0, failures := [f0] }

/-- An entry `F001` in progress, with no guardrail yet. -/
def f1ip : Failure :=
  { id := "F001", title := "Bypass", severity := "high",
    status := some { state := some "in_progress", guardrail := none,
                     verification := none, rejection := none, risk_acceptance := none } }

/-- A document with the single in-progress entry `F001`. -/
def specInProgress : FailureSpecDoc :=
  { version := "1.0", metadata := md0, failures := [f1ip] }

/-- The verification record of the verified entry. -/
def vrec0 : Verification :=
  { method := "Manual verification", evidence := "test passed",
    evidence_hash := "sha256:x", verified_by := "vera", verified_at := "T1" }

/-- A verified (terminal) entry `F001`. -/
def fVerified : Failure :=
  { id := "F001", title := "Bypass", severity := "critical",
    status := some { state := some "verified", guardrail := some g0,
                     verification := some vrec0, rejection := none,
                     risk_acceptance := none } }

/-- A document with the single verified entry `F001`. -/
def specVerified : FailureSpecDoc :=
  { version := "1.0", metadata := md0, failures := [fVerified] }

/-- A frozen typed document. -/
def specFrozen : FailureSpecDoc :=
  { version := "1.0",
    metadata := { feature := "Demo", created_by := "alice",
                  frozen_at := some "2024-01-01T00:00:00Z", frozen_commit := none },
    failures := [f0] }

/-! ## The claims -/

/-- C1: `verify` moves an entry to `verified` exactly when the entry is
found in state `claimed` and a non-empty evidence string is supplied; on
success it stores the supplied evidence verbatim and stamps
`verified_at := now`; on any failing precondition the command exits
(`Except.error`) before the document is saved, so nothing is mutated. -/
theorem claim1_verify_claimed_nonempty (hash : String → String) (user now : String)
    (spec : FailureSpecDoc) (id : String) (evidence method : Option String) :
    ((∃ s2, verifyCmd hash user now spec id evidence method = .ok s2) ↔
      (∃ f, findFailure spec id = some f ∧ stateOf f = some "claimed" ∧
        ∃ e, evidence = some e ∧ e ≠ "")) ∧
    (∀ s2 f e, verifyCmd hash user now spec id evidence method = .ok s2 →
      findFailure spec id = some f → evidence = some e →
      findFailure s2 id = some { f with
        status := some { (f.status.getD FStatus.empty) with
                         state := some "verified",
                         verification := some { method := jsOr method "Manual verification",
                                                evidence := e,
                                                evidence_hash := hash e,
                                                verified_by := user,
                                                verified_at := now } } }) := by
  cases hff : findFailure spec id with
  | none =>
    refine ⟨⟨?_, ?_⟩, ?_⟩
    · rintro ⟨s2, hs2⟩
      rw [verifyCmd, hff] at hs2
      simp at hs2
    · rintro ⟨f, hf, _⟩
      exact Option.noConfusion hf
    · intro s2 f e hs2 hf he
      exact Option.noConfusion hf
  | some f0' =>
    by_cases hst : stateOf f0' = some "claimed"
    · have hcond : ¬(stateOf f0' ≠ some "claimed") := by simp [hst]
      cases hto : truthyOpt evidence with
      | none =>
        refine ⟨⟨?_, ?_⟩, ?_⟩
        · rintro ⟨s2, hs2⟩
          rw [verifyCmd, hff] at hs2
          simp [if_neg hcond, hto] at hs2
        · rintro ⟨f, hf, _, e, hev, hene⟩
          have : truthyOpt evidence = some e := truthyOpt_eq_some.mpr ⟨hev, hene⟩
          rw [hto] at this
          cases this
        · intro s2 f e hs2 hf he
          rw [verifyCmd, hff] at hs2
          simp [if_neg hcond, hto] at hs2
      | some e0 =>
        obtain ⟨hev, hene⟩ := truthyOpt_eq_some.mp hto
        have hrun : verifyCmd hash user now spec id evidence method =
            .ok (saveWith spec id (fun g =>
              { g with status := some { (f0'.status.getD FStatus.empty) with
                  state := some "verified",
                  verification := some { method := jsOr method "Manual verification",
                                         evidence := e0,
                                         evidence_hash := hash e0,
                                         verified_by := user,
                                         verified_at := now } } })) := by
          rw [verifyCmd, hff]
          simp only [if_neg hcond, hto]
        refine ⟨⟨?_, ?_⟩, ?_⟩
        · intro _
          exact ⟨f0', rfl, hst, e0, hev, hene⟩
        · intro _
          exact ⟨_, hrun⟩
        · intro s2 f e hs2 hf he
          rw [Option.some.injEq] at hf
          subst hf
          rw [hev, Option.some.injEq] at he
          subst he
          rw [hrun, Except.ok.injEq] at hs2
          subst hs2
          exact findFailure_saveWith hff _ rfl
    · refine ⟨⟨?_, ?_⟩, ?_⟩
      · rintro ⟨s2, hs2⟩
        rw [verifyCmd, hff] at hs2
        simp [if_pos hst] at hs2
      · rintro ⟨f, hf, hfst, _⟩
        rw [Option.some.injEq] at hf
        subst hf
        exact absurd hfst hst
      · intro s2 f e hs2 hf he
        rw [verifyCmd, hff] at hs2
        simp [if_pos hst] at hs2

/-- C1 witness: on the concrete claimed document, verify with evidence
`"test passed"` succeeds and stamps the verification record. -/
theorem claim1_witness :
    (∃ s2, verifyCmd h0 "vera" "T1" specClaimed "F001" (some "test passed") none = .ok s2) ∧
    (∀ s2, verifyCmd h0 "vera" "T1" specClaimed "F001" (some "test passed") none = .ok s2 →
      findFailure s2 "F001" = some { f0 with
        status := some { st0c with
                         state := some "verified",
                         verification := some { method := "Manual verification",
                                                evidence := "test passed",
                                                evidence_hash := "sha256:test passed",
                                                verified_by := "vera",
                                                verified_at := "T1" } } }) := by
  have h := claim1_verify_claimed_nonempty h0 "vera" "T1" specClaimed "F001"
    (some "test passed") none
  constructor
  · exact h.1.mpr ⟨f0, by decide, by decide, "test passed", rfl, by decide⟩
  · intro s2 hs2
    exact h.2 s2 f0 "test passed" hs2 (by decide) rfl

/-- C2: `accept-risk` rejects any `--by` identity whose lowercase form
contains an automated-identity substring, mutating nothing (the command
exits before the document is saved); with a human identity and a non-empty
reason it succeeds and stamps the risk-acceptance record.  In particular
`"agent-007"` is rejected and `"alice@example.com"` is accepted. -/
theorem claim2_accept_risk_agent_check (now : String) (spec : FailureSpecDoc) (id : String)
    (reason acceptedBy reviewBy : Option String) :
    isAgentIdentity "agent-007" = true ∧
    isAgentIdentity "alice@example.com" = false ∧
    (∀ b, acceptedBy = some b → isAgentIdentity b = true →
      ∀ d, acceptRiskCmd now spec id reason acceptedBy reviewBy ≠ .ok d) ∧
    (∀ f r b, findFailure spec id = some f → reason = some r → r ≠ "" →
      acceptedBy = some b → b ≠ "" → isAgentIdentity b = false →
      ∃ d, acceptRiskCmd now spec id reason acceptedBy reviewBy = .ok d ∧
        findFailure d id = some { f with
          status := some { (f.status.getD FStatus.empty) with
                           state := some "accepted_risk",
                           risk_acceptance := some { reason := r,
                                                     accepted_by := b,
                                                     accepted_at := now,
                                                     review_by := truthyOpt reviewBy } } }) := by
  refine ⟨by decide, by decide, ?_, ?_⟩
  · intro b hb hag d hok
    rw [acceptRiskCmd] at hok
    cases hff : findFailure spec id with
    | none => rw [hff] at hok; simp at hok
    | some f =>
      rw [hff] at hok
      cases hro : truthyOpt reason with
      | none => rw [hro] at hok; simp at hok
      | some r =>
        rw [hro] at hok
        have hbo : truthyOpt acceptedBy = none ∨ truthyOpt acceptedBy = some b := by
          rw [hb]
          by_cases hbe : b = ""
          · left
            simp [truthyOpt, hbe]
          · right
            simp [truthyOpt, hbe]
        rcases hbo with hbo | hbo
        · rw [hbo] at hok
          simp at hok
        · rw [hbo] at hok
          simp [hag] at hok
  · intro f r b hf hr hrne hb hbne hagent
    exact acceptRisk_ok_helper hf hr hrne hb hbne hagent

/-- C2 witness: on the concrete claimed document, `accept-risk` by
`"agent-007"` is rejected while `"alice@example.com"` succeeds and stamps
the record. -/
theorem claim2_witness :
    (∀ d, acceptRiskCmd "T2" specClaimed "F001" (some "low risk") (some "agent-007") none ≠
      .ok d) ∧
    (∃ d, acceptRiskCmd "T2" specClaimed "F001" (some "low risk") (some "alice@example.com")
        none = .ok d ∧
      findFailure d "F001" = some { f0 with
        status := some { st0c with
                         state := some "accepted_risk",
                         risk_acceptance := some { reason := "low risk",
                                                   accepted_by := "alice@example.com",
                                                   accepted_at := "T2",
                                                   review_by := none } } }) := by
  constructor
  · exact (claim2_accept_risk_agent_check "T2" specClaimed "F001" (some "low risk")
      (some "agent-007") none).2.2.1 "agent-007" rfl (by decide)
  · exact (claim2_accept_risk_agent_check "T2" specClaimed "F001" (some "low risk")
      (some "alice@example.com") none).2.2.2 f0 "low risk" "alice@example.com"
      (by decide) rfl (by decide) rfl (by decide) (by decide)

/-- The entry `F001` after a `claim` with no design/location supplied:
the guardrail is filled with `Not specified` placeholders. -/
def fClaimedDefault : Failure :=
  { id := "F001", title := "Bypass", severity := "high",
    status := some { state := some "claimed",
                     guardrail := some { design := "Not specified",
                                         location := "Not specified",
                                         implementedBy := "bob",
                                         implemented_at := "T0" },
                     verification := none, rejection := none, risk_acceptance := none } }

/-- The document after the defaulted claim. -/
def specAfterClaim : FailureSpecDoc :=
  { version := "1.0", metadata := md0, failures := [fClaimedDefault] }

/-- C5 counterexample: a `claim` on the in-progress entry `F001` with
neither `--design` nor `--location` supplied is not rejected: it succeeds,
sets the state to `claimed` and fills the guardrail with `Not specified`
placeholders. -/
theorem claim5_counterexample :
    claimCmd "bob" "T0" specInProgress "F001" none none = .ok specAfterClaim := by
  rfl

/-- C5 amended: `claim` never rejects for an existing entry and does not
require design or location; it sets the state to `claimed` from any prior
state, fills `guardrail.design`/`location` from the supplied value, else
the prior guardrail value, else `"Not specified"`, and stamps
`implemented_by`/`implemented_at`, so the guardrail record is always fully
populated after a claim. -/
theorem claim5_amended (user now : String) (spec : FailureSpecDoc) (id : String)
    (design location : Option String) (f : Failure)
    (hf : findFailure spec id = some f) :
    ∃ d, claimCmd user now spec id design location = .ok d ∧
      findFailure d id = some { f with
        status := some { (f.status.getD FStatus.empty) with
          state := some "claimed",
          guardrail := some
            { design := jsOr design
                (jsOr ((f.status.getD FStatus.empty).guardrail.map (fun g => g.design))
                  "Not specified"),
              location := jsOr location
                (jsOr ((f.status.getD FStatus.empty).guardrail.map (fun g => g.location))
                  "Not specified"),
              implementedBy := user,
              implemented_at := now } } } := by
  refine ⟨saveWith spec id (fun g =>
    { g with status := some { (f.status.getD FStatus.empty) with
        state := some "claimed",
        guardrail := some
          { design := jsOr design
              (jsOr ((f.status.getD FStatus.empty).guardrail.map (fun g => g.design))
                "Not specified"),
            location := jsOr location
              (jsOr ((f.status.getD FStatus.empty).guardrail.map (fun g => g.location))
                "Not specified"),
            implementedBy := user,
            implemented_at := now } } }), ?_, ?_⟩
  · rw [claimCmd, hf]
  · exact findFailure_saveWith hf _ rfl

/-- C5 witness: the amended statement at the concrete in-progress
document. -/
theorem claim5_witness :
    ∃ d, claimCmd "bob" "T0" specInProgress "F001" none none = .ok d ∧
      findFailure d "F001" = some { f1ip with
        status := some { (f1ip.status.getD FStatus.empty) with
          state := some "claimed",
          guardrail := some { design := "Not specified",
                              location := "Not specified",
                              implementedBy := "bob",
                              implemented_at := "T0" } } } :=
  claim5_amended "bob" "T0" specInProgress "F001" none none f1ip (by decide)

/-- The verified entry after `accept-risk` (which the code allows). -/
def fRiskAccepted : Failure :=
  { id := "F001", title := "Bypass", severity := "critical",
    status := some { state := some "accepted_risk", guardrail := some g0,
                     verification := some vrec0, rejection := none,
                     risk_acceptance := some { reason := "accepted",
                                               accepted_by := "alice@example.com",
                                               accepted_at := "T2",
                                               review_by := none } } }

/-- The document after accepting risk on the verified entry. -/
def specRiskAccepted : FailureSpecDoc :=
  { version := "1.0", metadata := md0, failures := [fRiskAccepted] }

/-- C6 counterexample: `accept-risk` on an entry in the terminal state
`verified` is not rejected: it succeeds and moves the entry to
`accepted_risk`. -/
theorem claim6_counterexample :
    acceptRiskCmd "T2" specVerified "F001" (some "accepted") (some "alice@example.com") none =
      .ok specRiskAccepted := by
  rfl

/-- C6 amended: `accept-risk` never checks the current state of the entry: for
an entry in any state, including the terminal `verified`, it succeeds
whenever the entry exists, `--reason` and `--by` are non-empty, and the
`--by` identity does not look automated. -/
theorem claim6_amended (now : String) (spec : FailureSpecDoc) (id : String)
    (reason acceptedBy reviewBy : Option String) (f : Failure) (r b : String)
    (hf : findFailure spec id = some f) (hstate : stateOf f = some "verified")
    (hr : reason = some r) (hrne : r ≠ "") (hb : acceptedBy = some b) (hbne : b ≠ "")
    (hagent : isAgentIdentity b = false) :
    ∃ d, acceptRiskCmd now spec id reason acceptedBy reviewBy = .ok d ∧
      findFailure d id = some { f with
        status := some { (f.status.getD FStatus.empty) with
                         state := some "accepted_risk",
                         risk_acceptance := some { reason := r,
                                                   accepted_by := b,
                                                   accepted_at := now,
                                                   review_by := truthyOpt reviewBy } } } :=
  acceptRisk_ok_helper hf hr hrne hb hbne hagent

/-- C6 witness: the amended statement at the concrete verified document. -/
theorem claim6_witness :
    ∃ d, acceptRiskCmd "T2" specVerified "F001" (some "accepted") (some "alice@example.com")
        none = .ok d ∧
      findFailure d "F001" = some { fVerified with
        status := some { (fVerified.status.getD FStatus.empty) with
                         state := some "accepted_risk",
                         risk_acceptance := some { reason := "accepted",
                                                   accepted_by := "alice@example.com",
                                                   accepted_at := "T2",
                                                   review_by := none } } } :=
  claim6_amended "T2" specVerified "F001" (some "accepted") (some "alice@example.com") none
    fVerified "accepted" "alice@example.com" (by decide) (by decide) rfl (by decide) rfl
    (by decide) (by decide)

/-- A stored entry whose id is lowercase. -/
def fLower : Failure :=
  { id := "f001", title := "Bypass", severity := "high", status := none }

/-- A document whose only entry has the lowercase id `"f001"`. -/
def specLower : FailureSpecDoc :=
  { version := "1.0", metadata := md0, failures := [fLower] }

/-- C10: entry lookup uppercases the supplied id and compares it exactly
against the stored id: looking up `"f001"` is the same as looking up
`"F001"` and addresses the first stored entry with id `"F001"`; an entry
found always carries the uppercased supplied id, so a stored lowercase id
such as `"f001"` is never found by any lookup. -/
theorem claim10_case_insensitive_lookup :
    (∀ spec : FailureSpecDoc, findFailure spec "f001" = findFailure spec "F001") ∧
    (∀ (spec : FailureSpecDoc) (pre post : List Failure) (f : Failure),
      spec.failures = pre ++ f :: post → (∀ g ∈ pre, g.id ≠ "F001") → f.id = "F001" →
      findFailure spec "f001" = some f) ∧
    (∀ (spec : FailureSpecDoc) (id : String) (f : Failure),
      findFailure spec id = some f → f.id = jsToUpper id) ∧
    (∀ (spec : FailureSpecDoc) (id : String) (f : Failure),
      f.id = "f001" → findFailure spec id ≠ some f) := by
  refine ⟨fun spec => rfl, ?_, ?_, ?_⟩
  · intro spec pre post f hsplit hpre hf
    have hup : jsToUpper "f001" = "F001" := rfl
    exact findFailure_first hsplit (by rw [hup]; exact hpre) (by rw [hup]; exact hf)
  · intro spec id f h
    exact findFailure_id h
  · intro spec id f hfid h
    have := findFailure_id h
    rw [hfid] at this
    exact jsToUpper_ne_f001 id this.symm

/-- C10 witness: on concrete documents, `"f001"` finds the stored `F001`
entry, and a stored `"f001"` entry is never found. -/
theorem claim10_witness :
    findFailure specClaimed "f001" = some f0 ∧
    f0.id = jsToUpper "f001" ∧
    findFailure specLower "f001" ≠ some fLower ∧
    findFailure specLower "F001" ≠ some fLower := by
  refine ⟨?_, ?_, ?_, ?_⟩
  · exact claim10_case_insensitive_lookup.2.1 specClaimed [] [] f0 rfl (by simp) rfl
  · exact claim10_case_insensitive_lookup.2.2.1 specClaimed "f001" f0
      (claim10_case_insensitive_lookup.2.1 specClaimed [] [] f0 rfl (by simp) rfl)
  · exact claim10_case_insensitive_lookup.2.2.2 specLower "f001" fLower rfl
  · exact claim10_case_insensitive_lookup.2.2.2 specLower "F001" fLower rfl

/-- C9: the priority score of the README formula at the two quoted
attribute combinations, and their relative order. -/
theorem claim9_priority_score :
    priorityScore .critical .high .system .hard = 4325 ∧
    priorityScore .low .low .component .trivial = 1095 ∧
    sortsBefore (priorityScore .critical .high .system .hard)
      (priorityScore .low .low .component .trivial) := by
  refine ⟨by decide, by decide, ?_⟩
  unfold sortsBefore
  decide

/-- A valid frozen document in the dynamic model. -/
def frozenJsDoc : JSValue :=
  .obj [("version", .str "1.0"),
        ("metadata", .obj [("feature", .str "Demo"),
                           ("created_by", .str "alice"),
                           ("frozen_at", .str "2024-01-01T00:00:00Z")]),
        ("failures", .arr [.obj [("id", .str "F001"),
                                 ("title", .str "Bypass"),
                                 ("severity", .str "critical"),
                                 ("oracle", .obj [("condition", .str "401 for unsigned"),
                                                  ("falsifiable", .bool true)]),
                                 ("repro", .obj [("steps", .arr [.str "curl"]),
                                                 ("expected_if_vulnerable", .str "200")]),
                                 ("evidence", .obj [("type", .str "unit_test"),
                                                    ("criteria", .str "test passes")])]])]

/-- C3: freeze is rejected, and therefore saves nothing, whenever a
precondition fails: the document is already frozen, the version is wrong,
`metadata.feature` is missing, or there are zero entries.  The last
conjunct is the already-frozen check of the CLI `freeze` command.  In both
models a rejection is an `Except.error`, produced before the document is
written back, so no field is mutated. -/
theorem claim3_freeze_no_mutation_on_failure :
    (∀ (now : String) (commit spec : JSValue),
      truthy (propD (propD spec "metadata") "frozen_at") = true →
      ∀ d, freezeDoc now commit spec ≠ .ok d) ∧
    (∀ (now : String) (commit spec : JSValue),
      propD spec "version" ≠ .str "1.0" →
      ∀ d, freezeDoc now commit spec ≠ .ok d) ∧
    (∀ (now : String) (commit spec : JSValue),
      truthy (propD (propD spec "metadata") "feature") = false →
      ∀ d, freezeDoc now commit spec ≠ .ok d) ∧
    (∀ (now : String) (commit spec : JSValue),
      propD spec "failures" = .arr [] →
      ∀ d, freezeDoc now commit spec ≠ .ok d) ∧
    (∀ (now : String) (commit : Option String) (spec : FailureSpecDoc) (t : String),
      spec.metadata.frozen_at = some t → t ≠ "" →
      ∀ d, freezeCmd now commit spec ≠ .ok d) := by
  refine ⟨?_, ?_, ?_, ?_, ?_⟩
  · intro now commit spec h d hok
    have hc := validateBeforeFreeze_nil (freezeDoc_ok hok)
    rw [hc.2.2.2.1] at h
    exact Bool.noConfusion h
  · intro now commit spec h d hok
    have hc := validateBeforeFreeze_nil (freezeDoc_ok hok)
    exact h hc.1
  · intro now commit spec h d hok
    have hc := validateBeforeFreeze_nil (freezeDoc_ok hok)
    rw [hc.2.2.1] at h
    exact Bool.noConfusion h
  · intro now commit spec h d hok
    have hc := validateBeforeFreeze_nil (freezeDoc_ok hok)
    exact (hc.2.2.2.2.2 [] h).1 rfl
  · intro now commit spec t hfz htne d hok
    rw [freezeCmd, hfz] at hok
    simp [truthyOpt, htne] at hok

/-- C3 witness: freezing the concrete already-frozen documents is rejected
in both models. -/
theorem claim3_witness :
    (∀ d, freezeDoc "T" JSValue.null frozenJsDoc ≠ .ok d) ∧
    (∀ d, freezeCmd "T" none specFrozen ≠ .ok d) := by
  constructor
  · exact claim3_freeze_no_mutation_on_failure.1 "T" JSValue.null frozenJsDoc (by rfl)
  · exact claim3_freeze_no_mutation_on_failure.2.2.2.2 "T" none specFrozen
      "2024-01-01T00:00:00Z" rfl (by decide)

/-- A document whose single entry fails the §4.1 structural id check
(`"BAD1"` does not match `^F\d{3}$`) while carrying all six fields the
freeze precondition tests for presence. -/
def badIdDoc : JSValue :=
  .obj [("version", .str "1.0"),
        ("metadata", .obj [("feature", .str "Demo"), ("created_by", .str "alice")]),
        ("failures", .arr [.obj [("id", .str "BAD1"),
                                 ("title", .str "Bypass"),
                                 ("severity", .str "critical"),
                                 ("oracle", .obj [("condition", .str "401 for unsigned"),
                                                  ("falsifiable", .bool true)]),
                                 ("repro", .obj [("steps", .arr [.str "curl"]),
                                                 ("expected_if_vulnerable", .str "200")]),
                                 ("evidence", .obj [("type", .str "unit_test"),
                                                    ("criteria", .str "test passes")])]])]

/-- A document whose entry has a truthy non-string `oracle.condition`. -/
def badCondDoc : JSValue :=
  .obj [("version", .str "1.0"),
        ("metadata", .obj [("feature", .str "Demo"), ("created_by", .str "alice")]),
        ("failures", .arr [.obj [("id", .str "F001"),
                                 ("title", .str "Bypass"),
                                 ("severity", .str "high"),
                                 ("oracle", .obj [("condition", .num 1),
                                                  ("falsifiable", .bool true)]),
                                 ("repro", .obj [("steps", .arr [.str "curl"]),
                                                 ("expected_if_vulnerable", .str "200")]),
                                 ("evidence", .obj [("type", .str "unit_test"),
                                                    ("criteria", .str "test passes")])]])]

/-- C4 counterexample: on a document whose `oracle.condition` is the
number `1`, `validate` does not return an `errors`/`warnings` result: the
call `condition.toLowerCase()` throws a `TypeError`. -/
theorem claim4_counterexample :
    validate false badCondDoc = .error "TypeError: toLowerCase is not a function" := by
  rfl

/-- C4 amended: `validate` returns an `errors`/`warnings` result and never
throws on well-typed documents: the document is not `null`, its truthy
`error` field is absent, and each entry is a non-`null` value whose truthy
`oracle.condition` is a string (in lint mode also its truthy `title` and
`evidence.criteria`); a truthy non-string `oracle.condition` instead makes
`validateFailure` throw a `TypeError`. -/
theorem claim4_amended (lintOpt : Bool) (spec : JSValue)
    (h : specWellTyped lintOpt spec = true) :
    ∃ r, validate lintOpt spec = .ok r :=
  validate_ok h

/-- C4 witness: the amended statement at a concrete well-typed document
(whose id is even malformed). -/
theorem claim4_witness :
    specWellTyped true badIdDoc = true ∧ (∃ r, validate true badIdDoc = .ok r) :=
  ⟨by decide, claim4_amended true badIdDoc (by decide)⟩

/-- The errors reported for a document, empty when validation throws. -/
def vErrorsOf : Except String VRes → List VEntry
  | .ok r => r.errors
  | .error _ => []

/-- C7 counterexample: the document whose entry has the malformed id
`"BAD1"` fails the §4.1 structural checks (`validate` reports errors), yet
`freeze.js` freezes it: its precondition only tests the presence of the
six fields, not the §4.1 rules. -/
theorem claim7_counterexample :
    isOkE (freezeDoc "2024-06-01T00:00:00Z" JSValue.null badIdDoc) = true ∧
    vErrorsOf (validate false badIdDoc) ≠ [] := by
  constructor
  · rfl
  · decide

/-- C7 amended: a successful freeze certifies only the shallow
preconditions: version `"1.0"`, truthy `metadata.feature`, not already
frozen, a non-empty entry list, and on every entry the presence (JavaScript
truthiness) of `id`, `title`, `severity`, `oracle`, `repro` and
`evidence`; it does not run the full §4.1 structural checks, so an entry
violating them (for example a malformed id) can still freeze. -/
theorem claim7_amended (now : String) (commit spec d : JSValue)
    (h : freezeDoc now commit spec = .ok d) :
    propD spec "version" = .str "1.0" ∧
    truthy (propD (propD spec "metadata") "feature") = true ∧
    truthy (propD (propD spec "metadata") "frozen_at") = false ∧
    truthy (propD spec "failures") = true ∧
    (∀ xs, propD spec "failures" = .arr xs → xs ≠ [] ∧
      ∀ f ∈ xs, truthy (propD f "id") = true ∧ truthy (propD f "title") = true ∧
        truthy (propD f "severity") = true ∧ truthy (propD f "oracle") = true ∧
        truthy (propD f "repro") = true ∧ truthy (propD f "evidence") = true) := by
  have hc := validateBeforeFreeze_nil (freezeDoc_ok h)
  exact ⟨hc.1, hc.2.2.1, hc.2.2.2.1, hc.2.2.2.2.1, hc.2.2.2.2.2⟩

/-- C7 witness: the amended statement at the concretely frozen document
with the malformed id. -/
theorem claim7_witness :
    propD badIdDoc "version" = .str "1.0" ∧
    truthy (propD (propD badIdDoc "metadata") "feature") = true ∧
    truthy (propD (propD badIdDoc "metadata") "frozen_at") = false ∧
    truthy (propD badIdDoc "failures") = true ∧
    (∀ xs, propD badIdDoc "failures" = .arr xs → xs ≠ [] ∧
      ∀ f ∈ xs, truthy (propD f "id") = true ∧ truthy (propD f "title") = true ∧
        truthy (propD f "severity") = true ∧ truthy (propD f "oracle") = true ∧
        truthy (propD f "repro") = true ∧ truthy (propD f "evidence") = true) :=
  claim7_amended "2024-06-01T00:00:00Z" JSValue.null badIdDoc _ rfl

/-- A document with two fully §4.1-valid entries sharing the id `"F001"`. -/
def dupDoc : JSValue :=
  .obj [("version", .str "1.0"),
        ("metadata", .obj [("feature", .str "Demo"), ("created_by", .str "alice")]),
        ("failures", .arr [.obj [("id", .str "F001"),
                                 ("title", .str "Bypass"),
                                 ("severity", .str "high"),
                                 ("oracle", .obj [("condition", .str "401 for unsigned"),
                                                  ("falsifiable", .bool true)]),
                                 ("repro", .obj [("steps", .arr [.str "curl"]),
                                                 ("expected_if_vulnerable", .str "200")]),
                                 ("evidence", .obj [("type", .str "unit_test"),
                                                    ("criteria", .str "test passes")])],
                           .obj [("id", .str "F001"),
                                 ("title", .str "Replay"),
                                 ("severity", .str "low"),
                                 ("oracle", .obj [("condition", .str "409 for reused nonce"),
                                                  ("falsifiable", .bool true)]),
                                 ("repro", .obj [("steps", .arr [.str "curl twice"]),
                                                 ("expected_if_vulnerable", .str "200")]),
                                 ("evidence", .obj [("type", .str "unit_test"),
                                                    ("criteria", .str "test passes")])]])]

/-- C8 counterexample: a document containing two entries with the same id
`"F001"` validates with an empty errors list, because the duplicate-id
check lives in `lint`, which `validate` only runs when the lint option is
set (it is off by default). -/
theorem claim8_counterexample :
    validate false dupDoc = .ok ⟨[], []⟩ := by
  rfl

/-- C8 amended: the duplicate-id check is in `lint` and does push an error
(not a warning), so `validate` with the lint option reports a non-empty
errors list for every well-typed document with two entries sharing the
same string id; without the lint option duplicate ids are not flagged. -/
theorem claim8_amended (spec : JSValue) (xs l1 l2 l3 : List JSValue) (f1 f2 : JSValue)
    (s : String) (hw : specWellTyped true spec = true)
    (hfl : propD spec "failures" = .arr xs)
    (hxs : xs = l1 ++ (f1 :: (l2 ++ (f2 :: l3))))
    (hid1 : propD f1 "id" = .str s) (hid2 : propD f2 "id" = .str s) :
    ∃ r, validate true spec = .ok r ∧ r.errors ≠ [] := by
  obtain ⟨hn, hu, herr, hallP⟩ := specWellTyped_parts hw
  have hallNT : ∀ g ∈ xs, entryNoThrow g = true :=
    fun g hg => (hallP xs hfl g hg).1
  have hallL : ∀ g ∈ xs, entryLintOk g = true :=
    fun g hg => (hallP xs hfl g hg).2 rfl
  have hf1mem : f1 ∈ xs := by rw [hxs]; simp
  have hf2mem : f2 ∈ xs := by rw [hxs]; simp
  obtain ⟨e0, h0⟩ := validateSchema_ok hn hu
  by_cases hs : s = ""
  · -- the shared id is falsy: `validateFailure` pushes missing-id errors
    subst hs
    obtain ⟨hn1, hu1, _⟩ := entryNoThrow_parts (hallNT f1 hf1mem)
    have hred : checkId ("failures[" ++ toString (0 + l1.length) ++ "]") f1 =
        .ok [("failures[" ++ toString (0 + l1.length) ++ "]" ++ ".id",
              "Missing required field: id")] := by
      rw [checkId, getProp_eq_ok hn1 hu1, hid1]
      rfl
    have hallSplit : ∀ g ∈ l1 ++ (f1 :: (l2 ++ (f2 :: l3))), entryNoThrow g = true := by
      rw [← hxs]
      exact hallNT
    obtain ⟨L, hL, hLne⟩ := validateFailures_nonnil hallSplit (by
      intro lid hl
      rw [hred, Except.ok.injEq] at hl
      rw [← hl]
      simp)
    rw [← hxs] at hL
    obtain ⟨⟨eL, wL⟩, hlint⟩ := lint_ok_total hn hu (by
      intro ys hys g hg
      rw [hfl, JSValue.arr.injEq] at hys
      subst hys
      exact hallL g hg)
    refine ⟨⟨e0 ++ L ++ eL, wL⟩, ?_, ?_⟩
    · simp only [validate, getProp_eq_ok hn hu, herr, Bool.false_eq_true, if_false, h0,
        hfl, hL, if_true, hlint]
    · cases L
      · simp at hLne
      · simp
  · -- the shared id is truthy: the `lint` loop pushes a duplicate-id error
    have hv : truthy (JSValue.str s) = true := by simp [truthy, hs]
    have hsvz := jsSVZ_str_refl s
    obtain ⟨es1, ws1, ids1, t1, hrun1, _⟩ :=
      lintRun_ok l1 (fun g hg => hallL g (by rw [hxs]; simp [hg])) 0 [] []
    obtain ⟨wsf, t2, hf1run⟩ := lintEntry_ok (hallL f1 hf1mem)
      ("failures[" ++ toString l1.length ++ "]") ids1 t1
    have hidafter : (lintIdPart ("failures[" ++ toString l1.length ++ "]") ids1
        (propD f1 "id")).2 = ids1 ++ [JSValue.str s] := by
      rw [lintIdPart, hid1]
      simp [hv]
    obtain ⟨esR, wsR, idsR, tR, hrunR, hesRne⟩ :=
      lintRun_dup (l2 ++ (f2 :: l3))
        (fun g hg => hallL g (by rw [hxs]; simp at hg ⊢; tauto))
        (JSValue.str s) hv hsvz (l1.length + 1) (ids1 ++ [JSValue.str s]) t2
        (by simp) ⟨f2, by simp, hid2⟩
    have hconsrun : lintRun l1.length ids1 t1 (f1 :: (l2 ++ (f2 :: l3))) =
        .ok ((lintIdPart ("failures[" ++ toString l1.length ++ "]") ids1
                (propD f1 "id")).1 ++ esR, wsf ++ wsR, idsR, tR) := by
      simp only [lintRun, hf1run, hidafter, hrunR]
    have hfull : lintRun 0 [] [] xs =
        .ok (es1 ++ ((lintIdPart ("failures[" ++ toString l1.length ++ "]") ids1
                (propD f1 "id")).1 ++ esR), ws1 ++ (wsf ++ wsR), idsR, tR) := by
      rw [hxs, lintRun_append]
      simp only [hrun1, Nat.zero_add, hconsrun]
    obtain ⟨ws2, hlint⟩ := lint_arr hn hu hfl hfull
    obtain ⟨L, hL⟩ := validateFailures_ok xs hallNT 0
    refine ⟨⟨e0 ++ L ++ (es1 ++ ((lintIdPart ("failures[" ++ toString l1.length ++ "]") ids1
        (propD f1 "id")).1 ++ esR)), ws2⟩, ?_, ?_⟩
    · simp only [validate, getProp_eq_ok hn hu, herr, Bool.false_eq_true, if_false, h0,
        hfl, hL, if_true, hlint]
    · cases esR
      · simp at hesRne
      · simp

/-- C8 witness: the amended statement at the concrete well-typed document
with two `"F001"` entries: lint-mode validation reports errors. -/
theorem claim8_witness :
    specWellTyped true dupDoc = true ∧
    (∃ r, validate true dupDoc = .ok r ∧ r.errors ≠ []) := by
  refine ⟨by decide, ?_⟩
  exact claim8_amended dupDoc (match propD dupDoc "failures" with
      | JSValue.arr xs => xs
      | _ => []) [] [] []
    (match propD dupDoc "failures" with
      | JSValue.arr (a :: _) => a
      | _ => JSValue.null)
    (match propD dupDoc "failures" with
      | JSValue.arr (_ :: b :: _) => b
      | _ => JSValue.null)
    "F001" (by decide) (by rfl) (by rfl) (by rfl) (by rfl)
